import Mathlib

/-!
Verification development for the `nginx-markdown-for-agents` Rust converter core
(`src/components/rust-converter/src/`).  Rust strings are modelled as lists of
Unicode scalar values (`Str := List Char`); byte slices as `List Nat` with
values below 256; `u32` arithmetic as `Nat` with explicit `% 2 ^ 32`.  Each
definition is a shallow embedding of the correspondingly named Rust item; the
doc comment of a definition names its source when the name alone is not enough.
-/

set_option maxHeartbeats 2000000

/-- Rust `String` / `&str` contents, as the list of Unicode scalar values. -/
abbrev Str := List Char

/-- Model of Rust `char::is_whitespace`: the Unicode `White_Space` property
(U+0009..U+000D, U+0020, U+0085, U+00A0, U+1680, U+2000..U+200A, U+2028,
U+2029, U+202F, U+205F, U+3000). -/
def rustIsWhitespace (c : Char) : Bool :=
  let n := c.toNat
  (9 ≤ n ∧ n ≤ 13) ∨ n = 32 ∨ n = 133 ∨ n = 160 ∨ n = 5760 ∨
    (8192 ≤ n ∧ n ≤ 8202) ∨ n = 8232 ∨ n = 8233 ∨ n = 8239 ∨ n = 8287 ∨ n = 12288

/-- Model of Rust `str::trim_start` (drop leading whitespace). -/
def rustTrimStart (s : Str) : Str := s.dropWhile rustIsWhitespace

/-- Model of Rust `str::trim_end` (drop trailing whitespace). -/
def rustTrimEnd (s : Str) : Str := (s.reverse.dropWhile rustIsWhitespace).reverse

/-- Model of Rust `str::trim` (drop leading and trailing whitespace). -/
def rustTrim (s : Str) : Str := rustTrimEnd (rustTrimStart s)

/-- Model of Rust `str::starts_with` for a string pattern. -/
def strStartsWith (s p : Str) : Bool := p.isPrefixOf s

/-- Model of Rust `str::ends_with` for a string pattern. -/
def strEndsWith (s p : Str) : Bool := p.isSuffixOf s

/-- Model of Rust `str::contains` for a string pattern (substring search). -/
def strContains (s p : Str) : Bool :=
  match s with
  | [] => p = []
  | _ :: rest => p.isPrefixOf s || strContains rest p

/-- Model of Rust `char::to_lowercase` restricted to its ASCII action, which is
all the dangerous-scheme comparison below can distinguish: Lean's
`Char.toLower` maps `A`..`Z` to `a`..`z` and leaves everything else unchanged,
exactly as Rust does on ASCII. -/
def rustToLowercase (s : Str) : Str := s.map Char.toLower

/-- Model of Rust `str::split_whitespace`: maximal runs of non-whitespace
(written as a left fold that carries the finished words and the current word
reversed). -/
def splitWhitespace (s : Str) : List Str :=
  let step := fun (p : List Str × Str) c =>
    if rustIsWhitespace c then
      (if p.2 = [] then p.1 else p.1 ++ [p.2.reverse], ([] : Str))
    else (p.1, c :: p.2)
  let r := s.foldl step ([], [])
  if r.2 = [] then r.1 else r.1 ++ [r.2.reverse]

/-- Join a list of strings with a separator (Rust `Vec::join`). -/
def joinSep (sep : Str) (ws : List Str) : Str :=
  match ws with
  | [] => []
  | [w] => w
  | w :: rest => w ++ sep ++ joinSep sep rest

/-- Model of Rust `str::find` for a string pattern: byte index of the first
occurrence, here the index in scalar values (all patterns used are ASCII and
the surrounding code only ever slices at these indices plus ASCII lengths, so
scalar indices and byte indices agree in every use below). -/
def strFind (s p : Str) : Option Nat :=
  match s with
  | [] => if p = [] then some 0 else none
  | _ :: rest =>
    if p.isPrefixOf s then some 0
    else (strFind rest p).map (· + 1)

/-- Model of Rust `str::trim_end_matches` for a single-character pattern. -/
def trimEndMatchesChar (s : Str) (c : Char) : Str :=
  (s.reverse.dropWhile (· = c)).reverse

/-! ## `error.rs` -/

/-- `ConversionError` from `error.rs`. -/
inductive ConversionError where
  | parseError (msg : Str)
  | encodingError (msg : Str)
  | timeout
  | memoryLimit
  | invalidInput (msg : Str)
  | internalError (msg : Str)
deriving DecidableEq

/-- `ConversionError::code` from `error.rs`. -/
def ConversionError.code : ConversionError → Nat
  | .parseError _ => 1
  | .encodingError _ => 2
  | .timeout => 3
  | .memoryLimit => 4
  | .invalidInput _ => 5
  | .internalError _ => 99

/-- `Display for ConversionError` from `error.rs`. -/
def ConversionError.display : ConversionError → Str
  | .parseError msg => "Parse error: ".data ++ msg
  | .encodingError msg => "Encoding error: ".data ++ msg
  | .timeout => "Conversion timeout exceeded".data
  | .memoryLimit => "Memory limit exceeded".data
  | .invalidInput msg => "Invalid input: ".data ++ msg
  | .internalError msg => "Internal error: ".data ++ msg

/-! ## `security.rs` -/

/-- `MAX_NESTING_DEPTH` from `security.rs`. -/
def MAX_NESTING_DEPTH : Nat := 1000

/-- `DANGEROUS_ELEMENTS` from `security.rs`. -/
def DANGEROUS_ELEMENTS : List Str :=
  [ "script".data, "style".data, "noscript".data, "iframe".data, "object".data,
    "embed".data, "applet".data, "link".data, "base".data ]

/-- `DANGEROUS_URL_SCHEMES` from `security.rs`. -/
def DANGEROUS_URL_SCHEMES : List Str :=
  [ "javascript:".data, "data:".data, "vbscript:".data, "file:".data, "about:".data ]

/-- `SanitizeAction` from `security.rs`. -/
inductive SanitizeAction where
  | allow
  | remove
  | stripAttributes
  | stripUrl
deriving DecidableEq

/-- `SecurityValidator::check_element` (the converter always uses the default
validator, so the `max_depth` field is the constant `MAX_NESTING_DEPTH`). -/
def check_element (tag_name : Str) : SanitizeAction :=
  if tag_name ∈ DANGEROUS_ELEMENTS then .remove else .allow

/-- `SecurityValidator::is_dangerous_url`.  Rust lowercases with the full
Unicode `to_lowercase` and trims Unicode whitespace; the embedding lowercases
ASCII only (see `rustToLowercase`), which agrees with Rust on every string
whose first scheme-length characters are ASCII, and no non-ASCII character
lowercases to an ASCII scheme character. -/
def is_dangerous_url (url : Str) : Bool :=
  let url_lower := rustToLowercase (rustTrim url)
  DANGEROUS_URL_SCHEMES.any (fun scheme => strStartsWith url_lower scheme)

/-- `SecurityValidator::sanitize_url`. -/
def sanitize_url (url : Str) : Option Str :=
  if is_dangerous_url url then none else some url

/-- `SecurityValidator::validate_depth` (default `max_depth = 1000`; the error
message is the formatted string from the source). -/
def validate_depth (depth : Nat) : Except Str Unit :=
  if depth > MAX_NESTING_DEPTH then
    .error ("HTML nesting depth ".data ++ (Nat.repr depth).data ++
      " exceeds maximum allowed depth ".data ++ (Nat.repr MAX_NESTING_DEPTH).data)
  else .ok ()

/-! ## `ConversionContext` (`converter.rs`)

The Rust context stores a `std::time::Instant` start time and compares
`start_time.elapsed()` against the timeout.  The embedding replaces the pair
(start time, wall clock) by the single observable quantity `elapsed` that
`check_timeout` reads; the claims under verification fix it (deadline already
elapsed, or timeout disabled), which a monotone clock preserves across
checkpoints.  Durations are in nanoseconds; only `0` vs `> timeout` matters. -/

structure ConversionContext where
  timeout : Nat
  node_count : Nat
  elapsed : Nat
deriving DecidableEq

/-- `ConversionContext::check_timeout`. -/
def check_timeout (ctx : ConversionContext) : Except ConversionError Unit :=
  if ctx.timeout = 0 then .ok ()
  else if ctx.elapsed > ctx.timeout then .error .timeout
  else .ok ()

/-- `ConversionContext::increment_and_check`.  `node_count` is a `u32`; the
increment is reduced `% 2 ^ 32` (release-mode wrapping). -/
def increment_and_check (ctx : ConversionContext) :
    Except ConversionError ConversionContext :=
  let ctx' := { ctx with node_count := (ctx.node_count + 1) % 2 ^ 32 }
  if ctx'.node_count % 100 = 0 then
    match check_timeout ctx' with
    | .error e => .error e
    | .ok _ => .ok ctx'
  else .ok ctx'

/-- `n` successive calls of `increment_and_check` starting from `ctx`,
propagating the first error (the caller writes `ctx.increment_and_check()?`). -/
def iterate_increment_and_check (ctx : ConversionContext) :
    Nat → Except ConversionError ConversionContext
  | 0 => .ok ctx
  | n + 1 => do
    let c ← iterate_increment_and_check ctx n
    increment_and_check c

/-! ## `token_estimator.rs`

`TokenEstimator::estimate` with the default `chars_per_token = 4.0` computes
`(char_count as f32 / 4.0).ceil() as u32`.  The `f32` pipeline is embedded
exactly: `char_count as f32` rounds the count to 24 significant bits with
round-to-nearest, ties-to-even (`roundF32` below); division by `4.0` is exact
in binary floating point (it only lowers the exponent, and the quotient never
underflows); `.ceil()` of the exact quotient is the mathematical ceiling,
which is representable whenever finite; `as u32` saturates at `u32::MAX`.
When `char_count as f32` overflows to infinity the Rust cast also saturates to
`u32::MAX`, which coincides with `min` applied to the unbounded rounding, so a
single formula covers both cases. -/

/-- Round a natural number to the nearest multiple of `2 ^ k`, ties to the
even multiple (the IEEE-754 significand rounding step). -/
def roundAt (k n : Nat) : Nat :=
  if 2 ^ (k - 1) < n % 2 ^ k ∨ (n % 2 ^ k = 2 ^ (k - 1) ∧ n / 2 ^ k % 2 = 1) then
    (n / 2 ^ k + 1) * 2 ^ k
  else n / 2 ^ k * 2 ^ k

/-- Round a natural number to 24 significant binary digits, nearest,
ties-to-even: the value of `n as f32` (unbounded, see the section comment). -/
def roundF32 (n : Nat) : Nat :=
  if n < 2 ^ 24 then n else roundAt (n.log2 - 23) n

/-- `TokenEstimator::estimate` with the default divisor `4.0`
(`markdown.chars().count()` is the scalar-value count, i.e. list length). -/
def estimate (markdown : Str) : Nat :=
  min (2 ^ 32 - 1) ((roundF32 markdown.length + 3) / 4)

/-! ## `etag_generator.rs`

`ETagGenerator::generate` hashes with the `blake3` crate (an external
dependency whose reference algorithm is embedded below in full: compression
function, chunking, and binary hash tree), truncates to 16 bytes, hex-encodes
in lowercase and wraps in double quotes.  Bytes are `Nat` values below 256 and
`u32` words are `Nat` values reduced `% 2 ^ 32`. -/

/-- Addition mod 2^32. -/
def add32 (a b : Nat) : Nat := (a + b) % 2 ^ 32

/-- Right rotation of a 32-bit word (for the rotation amounts 16, 12, 8, 7
used by BLAKE3). -/
def rotr32 (x n : Nat) : Nat := x / 2 ^ n + x % 2 ^ n * 2 ^ (32 - n)

/-- BLAKE3 initialisation vector. -/
def blake3IV : List Nat :=
  [ 0x6A09E667, 0xBB67AE85, 0x3C6EF372, 0xA54FF53A,
    0x510E527F, 0x9B05688C, 0x1F83D9AB, 0x5BE0CD19 ]

/-- BLAKE3 domain flags. -/
def CHUNK_START : Nat := 1
/-- BLAKE3 domain flag. -/
def CHUNK_END : Nat := 2
/-- BLAKE3 domain flag. -/
def PARENT : Nat := 4
/-- BLAKE3 domain flag. -/
def ROOT : Nat := 8

/-- The 16-word internal state of the BLAKE3 compression function. -/
structure B3State where
  v0 : Nat
  v1 : Nat
  v2 : Nat
  v3 : Nat
  v4 : Nat
  v5 : Nat
  v6 : Nat
  v7 : Nat
  v8 : Nat
  v9 : Nat
  v10 : Nat
  v11 : Nat
  v12 : Nat
  v13 : Nat
  v14 : Nat
  v15 : Nat

/-- The BLAKE3 quarter-round (`g`) on four state words and two message words. -/
def b3g (a b c d mx my : Nat) : Nat × Nat × Nat × Nat :=
  let a := add32 (add32 a b) mx
  let d := rotr32 (Nat.xor d a) 16
  let c := add32 c d
  let b := rotr32 (Nat.xor b c) 12
  let a := add32 (add32 a b) my
  let d := rotr32 (Nat.xor d a) 8
  let c := add32 c d
  let b := rotr32 (Nat.xor b c) 7
  (a, b, c, d)

/-- One BLAKE3 round: columns then diagonals. -/
def b3round (s : B3State) (m : List Nat) : B3State :=
  let g := fun i => m.getD i 0
  let (a0, b0, c0, d0) := b3g s.v0 s.v4 s.v8 s.v12 (g 0) (g 1)
  let (a1, b1, c1, d1) := b3g s.v1 s.v5 s.v9 s.v13 (g 2) (g 3)
  let (a2, b2, c2, d2) := b3g s.v2 s.v6 s.v10 s.v14 (g 4) (g 5)
  let (a3, b3, c3, d3) := b3g s.v3 s.v7 s.v11 s.v15 (g 6) (g 7)
  let (a0, b1', c2', d3') := b3g a0 b1 c2 d3 (g 8) (g 9)
  let (a1, b2', c3', d0') := b3g a1 b2 c3 d0 (g 10) (g 11)
  let (a2, b3', c0', d1') := b3g a2 b3 c0 d1 (g 12) (g 13)
  let (a3, b0', c1', d2') := b3g a3 b0 c1 d2 (g 14) (g 15)
  ⟨a0, a1, a2, a3, b0', b1', b2', b3', c0', c1', c2', c3', d0', d1', d2', d3'⟩

/-- The BLAKE3 message permutation applied between rounds. -/
def b3permute (m : List Nat) : List Nat :=
  [2, 6, 3, 10, 7, 0, 4, 13, 1, 11, 12, 5, 9, 14, 15, 8].map (fun i => m.getD i 0)

/-- The BLAKE3 compression function: 7 rounds then the feed-forward xor.
`cv` is the 8-word chaining value, `m` the 16-word message block. -/
def b3compress (cv : List Nat) (m : List Nat) (counter blockLen flags : Nat) :
    B3State :=
  let h := fun i => cv.getD i 0
  let s0 : B3State :=
    ⟨h 0, h 1, h 2, h 3, h 4, h 5, h 6, h 7,
      blake3IV.getD 0 0, blake3IV.getD 1 0, blake3IV.getD 2 0, blake3IV.getD 3 0,
      counter % 2 ^ 32, counter / 2 ^ 32 % 2 ^ 32, blockLen % 2 ^ 32, flags % 2 ^ 32⟩
  let s1 := b3round s0 m
  let m := b3permute m
  let s2 := b3round s1 m
  let m := b3permute m
  let s3 := b3round s2 m
  let m := b3permute m
  let s4 := b3round s3 m
  let m := b3permute m
  let s5 := b3round s4 m
  let m := b3permute m
  let s6 := b3round s5 m
  let m := b3permute m
  let s7 := b3round s6 m
  ⟨Nat.xor s7.v0 s7.v8, Nat.xor s7.v1 s7.v9, Nat.xor s7.v2 s7.v10,
    Nat.xor s7.v3 s7.v11, Nat.xor s7.v4 s7.v12, Nat.xor s7.v5 s7.v13,
    Nat.xor s7.v6 s7.v14, Nat.xor s7.v7 s7.v15,
    Nat.xor s7.v8 (h 0), Nat.xor s7.v9 (h 1), Nat.xor s7.v10 (h 2),
    Nat.xor s7.v11 (h 3), Nat.xor s7.v12 (h 4), Nat.xor s7.v13 (h 5),
    Nat.xor s7.v14 (h 6), Nat.xor s7.v15 (h 7)⟩

/-- First 8 words of a compression state (the chaining value). -/
def b3first8 (s : B3State) : List Nat :=
  [s.v0, s.v1, s.v2, s.v3, s.v4, s.v5, s.v6, s.v7]

/-- Split a list into consecutive pieces of `k` elements (`k > 0`); the last
piece may be shorter.  The empty list yields no pieces. -/
def listChunks (k : Nat) (l : List α) : List (List α) :=
  match l with
  | [] => []
  | c :: rest =>
    if h : k = 0 then []
    else (c :: rest).take k :: listChunks k ((c :: rest).drop k)
termination_by l.length
decreasing_by
  simp only [List.length_drop, List.length_cons]
  omega

/-- Four little-endian bytes of a 32-bit word. -/
def bytesOfWord (w : Nat) : List Nat :=
  [w % 256, w / 256 % 256, w / 65536 % 256, w / 16777216 % 256]

/-- Little-endian byte serialisation of a word list. -/
def wordsToBytes (ws : List Nat) : List Nat := ws.flatMap bytesOfWord

/-- One little-endian 32-bit word from (up to) four bytes. -/
def wordOfBytes (bs : List Nat) : Nat :=
  bs.getD 0 0 + 256 * bs.getD 1 0 + 65536 * bs.getD 2 0 + 16777216 * bs.getD 3 0

/-- A 64-byte block as 16 little-endian words (shorter blocks are
zero-padded, as in the reference implementation). -/
def blockWords (block : List Nat) : List Nat :=
  (List.range 16).map (fun i => wordOfBytes ((block.drop (4 * i)).take 4))

/-- A pending BLAKE3 output: the inputs of the final compression of a chunk
or parent node, before the decision whether it is the root. -/
structure B3Output where
  cv : List Nat
  block : List Nat
  counter : Nat
  blockLen : Nat
  flags : Nat

/-- Chaining value of a pending output (non-root). -/
def b3chainingValue (o : B3Output) : List Nat :=
  b3first8 (b3compress o.cv o.block o.counter o.blockLen o.flags)

/-- First 32 root output bytes of a pending output (output block counter 0,
`ROOT` flag added). -/
def b3rootBytes32 (o : B3Output) : List Nat :=
  wordsToBytes (b3first8 (b3compress o.cv o.block 0 o.blockLen (o.flags ||| ROOT)))

/-- Block loop of a chunk (the `while` over full blocks in the reference
implementation), threading the chaining value and stopping at the last block,
which becomes the pending output. -/
def b3chunkGo (chunkIndex : Nat) (cv : List Nat) (first : Bool) :
    List (List Nat) → B3Output
  | [] => ⟨cv, blockWords [], chunkIndex, 0, CHUNK_START ||| CHUNK_END⟩
  | [b] =>
    ⟨cv, blockWords b, chunkIndex, b.length,
      (if first then CHUNK_START else 0) ||| CHUNK_END⟩
  | b :: b' :: rest =>
    let flags := if first then CHUNK_START else 0
    b3chunkGo chunkIndex
      (b3chainingValue ⟨cv, blockWords b, chunkIndex, 64, flags⟩) false (b' :: rest)

/-- Process one 1024-byte chunk: compress all full blocks into the chaining
value and return the final block as a pending output.  The first block of the
chunk carries `CHUNK_START`, the last carries `CHUNK_END`; an empty chunk is a
single empty block carrying both. -/
def b3chunkOutput (chunkIndex : Nat) (chunk : List Nat) : B3Output :=
  let blocks := if chunk = [] then [[]] else listChunks 64 chunk
  b3chunkGo chunkIndex blake3IV true blocks

/-- Largest power of two strictly below `n` (defined for `n ≥ 2`): the left
subtree width of the BLAKE3 hash tree. -/
def largestPow2Below (n : Nat) : Nat := 2 ^ Nat.log2 (n - 1)

theorem largestPow2Below_pos (n : Nat) : 1 ≤ largestPow2Below n :=
  Nat.one_le_two_pow

theorem largestPow2Below_lt {n : Nat} (h : 2 ≤ n) : largestPow2Below n < n := by
  have h1 : n - 1 ≠ 0 := by omega
  have h2 : 2 ^ Nat.log2 (n - 1) ≤ n - 1 :=
    (Nat.le_log2 h1).mp (Nat.le_refl _)
  unfold largestPow2Below
  omega

/-- Combine the pending outputs of the chunks into the root pending output of
the binary hash tree: a single chunk is its own root; otherwise the left
subtree takes the largest power of two of chunks strictly below the total.
The `[]` case is unreachable (the chunk list is never empty). -/
def b3combine (outs : List B3Output) : B3Output :=
  match outs with
  | [] => ⟨blake3IV, blockWords [], 0, 0, 0⟩
  | [o] => o
  | o1 :: o2 :: rest =>
    let n := largestPow2Below (o1 :: o2 :: rest).length
    let l := b3chainingValue (b3combine ((o1 :: o2 :: rest).take n))
    let r := b3chainingValue (b3combine ((o1 :: o2 :: rest).drop n))
    ⟨blake3IV, l ++ r, 0, 64, PARENT⟩
termination_by outs.length
decreasing_by
  · have hl := largestPow2Below_lt (n := (o1 :: o2 :: rest).length)
      (by simp only [List.length_cons]; omega)
    simp only [List.length_take, List.length_cons] at hl ⊢
    omega
  · have hp := largestPow2Below_pos ((o1 :: o2 :: rest).length)
    simp only [List.length_drop, List.length_cons] at hp ⊢
    omega

/-- `blake3::hash`: 32-byte BLAKE3 hash of a byte string. -/
def blake3Hash (input : List Nat) : List Nat :=
  let chunks := if input = [] then [[]] else listChunks 1024 input
  let outs := (List.range chunks.length).map
    (fun i => b3chunkOutput i (chunks.getD i []))
  b3rootBytes32 (b3combine outs)

/-- The sixteen lowercase hex digit characters. -/
def hexDigits : Str := "0123456789abcdef".data

/-- Lowercase hex encoding of one byte, high nibble first (`hex::encode`). -/
def hexEncodeByte (b : Nat) : Str := [hexDigits.getD (b / 16) '0', hexDigits.getD (b % 16) '0']

/-- `hex::encode`: lowercase hex encoding of a byte string. -/
def hexEncode (bytes : List Nat) : Str := bytes.flatMap hexEncodeByte

/-- `ETagGenerator::generate`: quote-wrapped lowercase hex of the first 16
bytes of the BLAKE3 hash of the markdown bytes. -/
def generate (markdown : List Nat) : Str :=
  Char.ofNat 34 :: hexEncode ((blake3Hash markdown).take 16) ++ [Char.ofNat 34]

/-! ## Document tree (`markup5ever_rcdom`)

The permissive HTML5 tree built by the parser adapter.  `html5ever` is an
external dependency; the converter and the metadata extractor only consume the
tree shape below (node variants, ordered attribute lists, ordered children). -/

/-- One attribute of an element, in parser order. -/
structure HtmlAttr where
  name : Str
  value : Str
deriving DecidableEq

/-- `NodeData` variants of the `rcdom` tree, together with the ordered child
list each node carries. -/
inductive Node where
  | document (children : List Node)
  | element (name : Str) (attrs : List HtmlAttr) (children : List Node)
  | text (contents : Str)
  | comment
  | doctype
  | processingInstruction

/-- `MetadataExtractor::get_attr`: first attribute with the given name. -/
def get_attr (attrs : List HtmlAttr) (name : Str) : Option Str :=
  (attrs.find? (fun a => a.name == name)).map (fun a => a.value)

/-! ## `metadata.rs` -/

/-- `PageMetadata` from `metadata.rs`. -/
structure PageMetadata where
  title : Option Str := none
  description : Option Str := none
  url : Option Str := none
  image : Option Str := none
  author : Option Str := none
  published : Option Str := none
deriving DecidableEq

/-- `MetadataExtractor::is_valid_base_url`. -/
def is_valid_base_url (url : Str) : Bool :=
  strStartsWith url "http://".data || strStartsWith url "https://".data

/-- `MetadataExtractor::get_origin`. -/
def get_origin (url : Str) : Str :=
  if strStartsWith url "https://".data then
    match strFind (url.drop 8) "/".data with
    | some pos => url.take (8 + pos)
    | none => url
  else if strStartsWith url "http://".data then
    match strFind (url.drop 7) "/".data with
    | some pos => url.take (7 + pos)
    | none => url
  else url

/-- `MetadataExtractor::get_base_directory`. -/
def get_base_directory (url : Str) : Str :=
  let trimmed := trimEndMatchesChar url '/'
  match (strFind trimmed.reverse "/".data).map (fun i => trimmed.length - 1 - i) with
  | some pos =>
    if pos > 0 ∧ trimmed[pos - 1]? = some '/' then trimmed
    else trimmed.take pos
  | none => trimmed

/-- `MetadataExtractor::resolve_url` (the extractor fields `base_url` and
`resolve_urls` are passed as the first two arguments). -/
def resolve_url (base_url : Option Str) (resolve_urls : Bool) (url : Str) : Str :=
  if ¬ resolve_urls then url
  else if url = [] then url
  else if strStartsWith url "http://".data || strStartsWith url "https://".data then url
  else if strStartsWith url "//".data then url
  else
    match base_url with
    | none => url
    | some base =>
      if ¬ is_valid_base_url base then url
      else if strStartsWith url "/".data then get_origin base ++ url
      else trimEndMatchesChar (get_base_directory base) '/' ++ "/".data ++ url

/-- `MetadataExtractor::process_meta_tag`. -/
def process_meta_tag (base_url : Option Str) (resolve_urls : Bool)
    (attrs : List HtmlAttr) (m : PageMetadata) : PageMetadata :=
  let property := get_attr attrs "property".data
  let name := get_attr attrs "name".data
  match get_attr attrs "content".data with
  | none => m
  | some content =>
    match property <|> name with
    | some key =>
      if key = "og:title".data ∨ key = "twitter:title".data then
        { m with title := some content }
      else if key = "og:description".data ∨ key = "description".data then
        if m.description = none then { m with description := some content } else m
      else if key = "og:image".data ∨ key = "twitter:image".data then
        if m.image = none then
          { m with image := some (resolve_url base_url resolve_urls content) }
        else m
      else if key = "og:url".data then
        if m.url = none then { m with url := some content } else m
      else if key = "author".data then
        if m.author = none then { m with author := some content } else m
      else if key = "article:published_time".data then
        if m.published = none then { m with published := some content } else m
      else m
    | none => m

mutual

/-- `MetadataExtractor::traverse_for_meta` (always returns `Ok` in Rust; the
embedding is the pure state update). -/
def traverse_for_meta (base_url : Option Str) (resolve_urls : Bool) (n : Node)
    (m : PageMetadata) : PageMetadata :=
  match n with
  | .element name attrs children =>
    let m1 := if name = "meta".data then
        process_meta_tag base_url resolve_urls attrs m
      else m
    traverse_for_meta_list base_url resolve_urls children m1
  | .document children => traverse_for_meta_list base_url resolve_urls children m
  | _ => m
termination_by (sizeOf n, 1)

/-- Child loop of `traverse_for_meta`. -/
def traverse_for_meta_list (base_url : Option Str) (resolve_urls : Bool)
    (ns : List Node) (m : PageMetadata) : PageMetadata :=
  match ns with
  | [] => m
  | c :: rest =>
    traverse_for_meta_list base_url resolve_urls rest
      (traverse_for_meta base_url resolve_urls c m)
termination_by (sizeOf ns, 0)

end

mutual

/-- `MetadataExtractor::extract_text_content` (text nodes plus recursion into
element and document children). -/
def extract_text_content : Node → Str
  | .text contents => contents
  | .element name attrs children =>
    extract_text_content_list (Node.element name attrs children) children
  | .document children => extract_text_content_list (Node.document children) children
  | _ => []
termination_by n => (sizeOf n, 1)

/-- Child loop of `extract_text_content` (the extra `Node` argument only
drives the termination measure). -/
def extract_text_content_list (parent : Node) (ns : List Node) : Str :=
  match ns with
  | [] => []
  | c :: rest => extract_text_content c ++ extract_text_content_list parent rest
termination_by (sizeOf ns, 0)

end

mutual

/-- `MetadataExtractor::find_element_text_recursive`: the whitespace-trimmed
text of the first element with the given name, in document order. -/
def find_element_text_recursive (element_name : Str) (n : Node) : Option Str :=
  match n with
  | .element name attrs children =>
    if name = element_name then
      some (rustTrim (extract_text_content (Node.element name attrs children)))
    else find_element_text_list element_name children
  | .document children => find_element_text_list element_name children
  | _ => none
termination_by (sizeOf n, 1)

/-- Child loop of `find_element_text_recursive`. -/
def find_element_text_list (element_name : Str) (ns : List Node) : Option Str :=
  match ns with
  | [] => none
  | c :: rest =>
    match find_element_text_recursive element_name c with
    | some t => some t
    | none => find_element_text_list element_name rest
termination_by (sizeOf ns, 0)

end

mutual

/-- `MetadataExtractor::find_link_href_recursive`: the `href` of the first
`link` element whose `rel` attribute equals `rel` (a matching `link` stops the
search in that subtree even when it has no `href`). -/
def find_link_href_recursive (rel : Str) (n : Node) : Option Str :=
  match n with
  | .element name attrs children =>
    if name = "link".data then
      if attrs.any (fun a => a.name == "rel".data && a.value == rel) then
        get_attr attrs "href".data
      else find_link_href_list rel children
    else find_link_href_list rel children
  | .document children => find_link_href_list rel children
  | _ => none
termination_by (sizeOf n, 1)

/-- Child loop of `find_link_href_recursive`. -/
def find_link_href_list (rel : Str) (ns : List Node) : Option Str :=
  match ns with
  | [] => none
  | c :: rest =>
    match find_link_href_recursive rel c with
    | some t => some t
    | none => find_link_href_list rel rest
termination_by (sizeOf ns, 0)

end

/-- `MetadataExtractor::extract`: `<title>` text first, then the meta-tag
pass, then the canonical link, falling back to `base_url` (this final
assignment is unconditional in the source). -/
def metadata_extract (base_url : Option Str) (resolve_urls : Bool)
    (dom : Node) : PageMetadata :=
  let m : PageMetadata := {}
  let m := { m with title := find_element_text_recursive "title".data dom }
  let m := traverse_for_meta base_url resolve_urls dom m
  match find_link_href_recursive "canonical".data dom with
  | some canonical =>
    { m with url := some (resolve_url base_url resolve_urls canonical) }
  | none => { m with url := base_url }

/-! ## `converter.rs`: options, text normalisation, non-recursive handlers -/

/-- `MarkdownFlavor` from `converter.rs`. -/
inductive MarkdownFlavor where
  | commonMark
  | gitHubFlavoredMarkdown
deriving DecidableEq

/-- `TableAlignment` from `converter.rs`. -/
inductive TableAlignment where
  | left
  | center
  | right
deriving DecidableEq

/-- `ConversionOptions` from `converter.rs`. -/
structure ConversionOptions where
  flavor : MarkdownFlavor
  include_front_matter : Bool
  extract_metadata : Bool
  simplify_navigation : Bool
  preserve_tables : Bool
  base_url : Option Str
  resolve_relative_urls : Bool
deriving DecidableEq

/-- `Default for ConversionOptions`. -/
def defaultConversionOptions : ConversionOptions :=
  ⟨.commonMark, false, false, true, true, none, true⟩

/-- `MarkdownConverter::normalize_text`: split on whitespace, join with single
spaces. -/
def normalize_text (text : Str) : Str :=
  joinSep " ".data (splitWhitespace text)

mutual

/-- `MarkdownConverter::extract_text`: text nodes plus recursion into element
children (document and other nodes are ignored by this helper). -/
def extract_text : Node → Str
  | .text contents => contents
  | .element name attrs children =>
    extract_text_list (Node.element name attrs children) children
  | _ => []
termination_by n => (sizeOf n, 1)

/-- Child loop of `extract_text`. -/
def extract_text_list (parent : Node) (ns : List Node) : Str :=
  match ns with
  | [] => []
  | c :: rest => extract_text c ++ extract_text_list parent rest
termination_by (sizeOf ns, 0)

end

mutual

/-- `MarkdownConverter::extract_code_content`: raw text without any
normalisation (text nodes plus recursion into element children). -/
def extract_code_content : Node → Str
  | .text contents => contents
  | .element name attrs children =>
    extract_code_content_list (Node.element name attrs children) children
  | _ => []
termination_by n => (sizeOf n, 1)

/-- Child loop of `extract_code_content`. -/
def extract_code_content_list (parent : Node) (ns : List Node) : Str :=
  match ns with
  | [] => []
  | c :: rest => extract_code_content c ++ extract_code_content_list parent rest
termination_by (sizeOf ns, 0)

end

/-- The blank-line snippet that opens every block handler in the source:
`if !output.is_empty() && !output.ends_with("\n\n") { ... }`. -/
def ensure_blank_line_before (out : Str) : Str :=
  if out ≠ [] ∧ ¬ strEndsWith out "\n\n".data then
    if strEndsWith out "\n".data then out ++ "\n".data else out ++ "\n\n".data
  else out

/-- `MarkdownConverter::handle_link`.  The Rust handler reads only the
anchor's attribute list and children, which the dispatcher passes explicitly;
it appends to `out` and never fails. -/
def handle_link (attrs : List HtmlAttr) (children : List Node) (out : Str) : Str :=
  let href := get_attr attrs "href".data
  let link_text := extract_text_list (Node.document children) children
  let normalized_text := normalize_text link_text
  match href with
  | some url =>
    match sanitize_url url with
    | some safe_url =>
      if normalized_text ≠ [] then
        out ++ "[".data ++ normalized_text ++ "](".data ++ safe_url ++ ")".data
      else out
    | none => if normalized_text ≠ [] then out ++ normalized_text else out
  | none => if normalized_text ≠ [] then out ++ normalized_text else out

/-- The URL that `handle_link` wraps in `](...)`, when it emits a link at all:
the projection of the handler's emitting branch. -/
def handle_link_emitted_url (attrs : List HtmlAttr) (children : List Node) :
    Option Str :=
  match get_attr attrs "href".data with
  | some url =>
    match sanitize_url url with
    | some safe_url =>
      if normalize_text (extract_text_list (Node.document children) children) ≠ [] then
        some safe_url
      else none
    | none => none
  | none => none

/-- `MarkdownConverter::handle_image`.  Reads only the attribute list. -/
def handle_image (attrs : List HtmlAttr) (out : Str) : Str :=
  let src := get_attr attrs "src".data
  let alt := (get_attr attrs "alt".data).getD []
  match src with
  | some url =>
    match sanitize_url url with
    | some safe_url => out ++ "![".data ++ alt ++ "](".data ++ safe_url ++ ")".data
    | none => out
  | none => out

/-- The URL that `handle_image` wraps in `](...)`, when it emits an image. -/
def handle_image_emitted_url (attrs : List HtmlAttr) : Option Str :=
  match get_attr attrs "src".data with
  | some url => sanitize_url url
  | none => none

/-- Inner loop of the language detection of `handle_code_block`: the first
`language-` or `lang-` class in one `class` attribute value overwrites the
running language (and the loop breaks at the first match). -/
def code_language_classes (lang : Str) : List Str → Str
  | [] => lang
  | cls :: rest =>
    match "language-".data.isPrefixOf cls, "lang-".data.isPrefixOf cls with
    | true, _ => cls.drop 9
    | false, true => cls.drop 5
    | false, false => code_language_classes lang rest

/-- Attribute loop of the language detection: each `class` attribute is
scanned; the attribute loop breaks once the language is non-empty. -/
def code_language_attrs (lang : Str) : List HtmlAttr → Str
  | [] => lang
  | a :: rest =>
    if a.name = "class".data then
      let lang1 := code_language_classes lang (splitWhitespace a.value)
      if lang1 ≠ [] then lang1 else code_language_attrs lang1 rest
    else code_language_attrs lang rest

/-- Child loop of the language detection: every `code` child of the `pre`
element is scanned (the source has no outer break). -/
def code_language_children (lang : Str) : List Node → Str
  | [] => lang
  | c :: rest =>
    match c with
    | .element name attrs _ =>
      if name = "code".data then
        code_language_children (code_language_attrs lang attrs) rest
      else code_language_children lang rest
    | _ => code_language_children lang rest

/-- `MarkdownConverter::handle_code_block` (a `pre` element): fenced block
with detected language, raw code content, closing fence, trailing blank line.
`extract_code_content` applied to the `pre` element equals the concatenation
over its children, which the dispatcher passes. -/
def handle_code_block (children : List Node) (out : Str) : Str :=
  let out := ensure_blank_line_before out
  let language := code_language_children [] children
  let out := out ++ "```".data ++ language ++ "\n".data
  let out := out ++ extract_code_content_list (Node.document children) children
  let out := if ¬ strEndsWith out "\n".data then out ++ "\n".data else out
  let out := out ++ "```".data ++ "\n".data
  out ++ "\n".data

/-- `MarkdownConverter::handle_inline_code`. -/
def handle_inline_code (children : List Node) (out : Str) : Str :=
  let code_content := extract_code_content_list (Node.document children) children
  out ++ "`".data ++ code_content ++ "`".data

/-- `MarkdownConverter::extract_alignment`: first `align` attribute wins,
else the first `style` attribute containing `text-align` with a recognised
direction, else `Left`. -/
def extract_alignment_styles : List HtmlAttr → TableAlignment
  | [] => .left
  | a :: rest =>
    if a.name = "style".data then
      let style := rustToLowercase a.value
      if strContains style "text-align".data then
        if strContains style "center".data then .center
        else if strContains style "right".data then .right
        else if strContains style "left".data then .left
        else extract_alignment_styles rest
      else extract_alignment_styles rest
    else extract_alignment_styles rest

/-- `MarkdownConverter::extract_alignment`. -/
def extract_alignment (attrs : List HtmlAttr) : TableAlignment :=
  match attrs.find? (fun a => a.name == "align".data) with
  | some a =>
    let value := rustToLowercase a.value
    if value = "left".data then .left
    else if value = "center".data then .center
    else if value = "right".data then .right
    else .left
  | none => extract_alignment_styles attrs

/-- Alignment separator cell of `write_gfm_table`. -/
def alignment_marker : TableAlignment → Str
  | .left => "---".data
  | .center => ":---:".data
  | .right => "---:".data

/-- Data-row cell loop of `write_gfm_table`: the first
`min (row length) (header count)` cells are emitted (the loop breaks at the
header width), then short rows are padded with empty cells. -/
def write_gfm_row (headers_len : Nat) (row : List Str) : Str :=
  (row.take headers_len).flatMap (fun cell => " ".data ++ cell ++ " |".data) ++
    (List.replicate (headers_len - row.length) "  |".data).flatten

/-- `MarkdownConverter::write_gfm_table` (never fails in the source). -/
def write_gfm_table (out : Str) (headers : List Str)
    (alignments : List TableAlignment) (rows : List (List Str)) : Str :=
  let out := out ++ "|".data ++
    headers.flatMap (fun h => " ".data ++ h ++ " |".data) ++ "\n".data
  let out := out ++ "|".data ++
    alignments.flatMap (fun a => " ".data ++ alignment_marker a ++ " |".data) ++
    "\n".data
  out ++ (rows.flatMap
    (fun row => "|".data ++ write_gfm_row headers.length row ++ "\n".data))

/-- `MarkdownConverter::write_yaml_string`. -/
def write_yaml_string (value : Str) : Str :=
  Char.ofNat 34 :: value.flatMap (fun ch =>
    if ch = Char.ofNat 34 then [Char.ofNat 92, Char.ofNat 34]
    else if ch = Char.ofNat 92 then [Char.ofNat 92, Char.ofNat 92]
    else if ch = Char.ofNat 10 then [Char.ofNat 92, 'n']
    else if ch = Char.ofNat 13 then [Char.ofNat 92, 'r']
    else if ch = Char.ofNat 9 then [Char.ofNat 92, 't']
    else [ch]) ++ [Char.ofNat 34]

/-- One optional front-matter field line (`name: "value"\n`), emitted only
when present and non-empty. -/
def front_matter_field (name : Str) (value : Option Str) : Str :=
  match value with
  | some v => if v ≠ [] then name ++ ": ".data ++ write_yaml_string v ++ "\n".data else []
  | none => []

/-- `MarkdownConverter::write_front_matter` (never fails in the source). -/
def write_front_matter (out : Str) (m : PageMetadata) : Str :=
  out ++ "---\n".data ++
    front_matter_field "title".data m.title ++
    front_matter_field "url".data m.url ++
    front_matter_field "description".data m.description ++
    front_matter_field "image".data m.image ++
    front_matter_field "author".data m.author ++
    front_matter_field "published".data m.published ++
    "---\n\n".data

/-- `MarkdownConverter::has_body_content`: whether the buffer already holds
Markdown body content (the front-matter prefix does not count). -/
def has_body_content (opts : ConversionOptions) (out : Str) : Bool :=
  if out = [] then false
  else if opts.include_front_matter ∧ opts.extract_metadata ∧
      strStartsWith out "---\n".data then
    let rest := out.drop 4
    match strFind rest "\n---\n".data with
    | some end_offset => (rest.drop (end_offset + 5)).any (fun ch => ¬ rustIsWhitespace ch)
    | none => true
  else true

/-! ## `converter.rs`: output normalisation -/

/-- `String::replace("\r\n", "\n")`: single left-to-right pass. -/
def replaceCrLf : Str → Str
  | [] => []
  | [c] => [c]
  | c :: c2 :: rest2 =>
    if c = Char.ofNat 13 ∧ c2 = Char.ofNat 10 then Char.ofNat 10 :: replaceCrLf rest2
    else c :: replaceCrLf (c2 :: rest2)

/-- Split at every newline, keeping empty segments (the final segment is what
follows the last newline). -/
def splitOnNl : Str → List Str
  | [] => [[]]
  | c :: rest =>
    if c = Char.ofNat 10 then [] :: splitOnNl rest
    else
      match splitOnNl rest with
      | [] => [[c]]
      | w :: ws => (c :: w) :: ws

/-- Model of Rust `str::lines`: segments split at `\n`, one carriage return
stripped from the end of every terminated segment, and no final empty
segment. -/
def rustLines (s : Str) : List Str :=
  let parts := splitOnNl s
  let stripCr := fun (l : Str) =>
    if strEndsWith l [Char.ofNat 13] then l.dropLast else l
  let init := parts.dropLast.map stripCr
  match parts.getLast? with
  | none => []
  | some last => if last = [] then init else init ++ [last]

/-- One character step of `MarkdownConverter::normalize_line_whitespace`
(state: result, `prev_space`, `at_start`, `in_inline_code`). -/
def nlw_step (st : Str × Bool × Bool × Bool) (ch : Char) : Str × Bool × Bool × Bool :=
  let (result, prev_space, at_start, in_inline_code) := st
  if ch = Char.ofNat 96 then
    (result ++ [ch], false, false, ! in_inline_code)
  else if ch = ' ' then
    if in_inline_code then (result ++ [ch], prev_space, at_start, in_inline_code)
    else if at_start then (result ++ [ch], prev_space, at_start, in_inline_code)
    else if ¬ prev_space then (result ++ [ch], true, at_start, in_inline_code)
    else (result, prev_space, at_start, in_inline_code)
  else (result ++ [ch], false, false, in_inline_code)

/-- `MarkdownConverter::normalize_line_whitespace`. -/
def normalize_line_whitespace (line : Str) : Str :=
  (line.foldl nlw_step ([], false, true, false)).1

/-- One line step of `MarkdownConverter::normalize_output` (state: result,
`prev_blank`, `in_code_block`): fence toggle first, then trailing-whitespace
strip, then either the blank-line collapse or the space-collapse emit. -/
def normalize_output_step (st : Str × Bool × Bool) (line : Str) : Str × Bool × Bool :=
  let (result, prev_blank, in_code_block) := st
  let in_code := if strStartsWith (rustTrimStart line) "```".data then
      ! in_code_block
    else in_code_block
  let trimmed := rustTrimEnd line
  if trimmed = [] then
    (if ¬ prev_blank then result ++ "\n".data else result, true, in_code)
  else
    (result ++ (if in_code then trimmed else normalize_line_whitespace trimmed) ++
      "\n".data, false, in_code)

/-- The `while result.ends_with("\n\n") { result.pop(); }` loop. -/
def pop_extra_newlines (s : Str) : Str :=
  if h : strEndsWith s "\n\n".data then pop_extra_newlines s.dropLast else s
termination_by s.length
decreasing_by
  have h2 : ("\n\n".data) <:+ s := by
    have := of_decide_eq_true (by simpa [strEndsWith] using h)
    exact this
  have h3 := List.IsSuffix.length_le h2
  have h4 : s ≠ [] := by
    intro hs
    rw [hs] at h3
    simp at h3
  have h5 : 0 < s.length := List.length_pos.mpr h4
  simp only [List.length_dropLast]
  omega

/-- `MarkdownConverter::normalize_output`. -/
def normalize_output (out : Str) : Str :=
  let out1 := replaceCrLf out
  let result := ((rustLines out1).foldl normalize_output_step ([], false, false)).1
  if ¬ strEndsWith result "\n".data then result ++ "\n".data
  else pop_extra_newlines result

/-! ## `converter.rs`: tree traversal and block handlers

Every Rust handler mutates a `&mut String`; each embedded handler takes the
buffer and returns the new buffer (inside `Except` when the Rust signature is
`Result`).  Handlers read only their node's attribute list and children,
which the dispatcher passes explicitly after matching the element. -/

/-- `text.starts_with(|c: char| c.is_whitespace())`. -/
def startsWithWhitespace (s : Str) : Bool :=
  match s with
  | c :: _ => rustIsWhitespace c
  | [] => false

/-- `text.ends_with(|c: char| c.is_whitespace())`. -/
def endsWithWhitespace (s : Str) : Bool :=
  match s.getLast? with
  | some c => rustIsWhitespace c
  | none => false

/-- The `NodeData::Text` arm of `traverse_node` (identical in
`traverse_node` and `traverse_node_with_context`): normalise, then re-attach
one boundary space on each side under the source's three conditions. -/
def text_node_append (opts : ConversionOptions) (contents : Str) (out : Str) : Str :=
  let normalized := normalize_text contents
  if normalized = [] then out
  else
    let out1 :=
      if startsWithWhitespace contents ∧ has_body_content opts out ∧
          ¬ strEndsWith out " ".data then
        out ++ " ".data
      else out
    let out2 := out1 ++ normalized
    if endsWithWhitespace contents then out2 ++ " ".data else out2

/-- Whether a node is a `tr` element (the `find` predicate in the `tbody`
branch of `handle_table`). -/
def nodeIsTr : Node → Bool
  | .element name _ _ => name == "tr".data
  | _ => false

mutual

/-- `MarkdownConverter::traverse_node`. -/
def traverse_node (opts : ConversionOptions) (n : Node) (out : Str)
    (depth : Nat) : Except ConversionError Str :=
  match n with
  | .document children => traverse_list opts children out depth
  | .element name attrs children =>
    handle_element opts (.element name attrs children) name out depth
  | .text contents => .ok (text_node_append opts contents out)
  | .comment => .ok out
  | .doctype => .ok out
  | .processingInstruction => .ok out
termination_by (sizeOf n, 3)

/-- The `for child in node.children` loops that feed `traverse_node`. -/
def traverse_list (opts : ConversionOptions) (ns : List Node) (out : Str)
    (depth : Nat) : Except ConversionError Str :=
  match ns with
  | [] => .ok out
  | c :: rest => do
    let out2 ← traverse_node opts c out depth
    traverse_list opts rest out2 depth
termination_by (sizeOf ns, 0)

/-- `MarkdownConverter::handle_element`: security check, depth guard, then
the tag dispatch. -/
def handle_element (opts : ConversionOptions) (n : Node) (tag_name : Str)
    (out : Str) (depth : Nat) : Except ConversionError Str :=
  match check_element tag_name with
  | .remove => .ok out
  | _ =>
    match validate_depth depth with
    | .error msg => .error (.invalidInput msg)
    | .ok _ =>
      match n with
      | .element _ attrs children =>
        if tag_name = "h1".data then handle_heading opts children 1 out depth
        else if tag_name = "h2".data then handle_heading opts children 2 out depth
        else if tag_name = "h3".data then handle_heading opts children 3 out depth
        else if tag_name = "h4".data then handle_heading opts children 4 out depth
        else if tag_name = "h5".data then handle_heading opts children 5 out depth
        else if tag_name = "h6".data then handle_heading opts children 6 out depth
        else if tag_name = "p".data then handle_paragraph opts children out depth
        else if tag_name = "a".data then .ok (handle_link attrs children out)
        else if tag_name = "img".data then .ok (handle_image attrs out)
        else if tag_name = "ul".data then handle_list opts children out 0 false
        else if tag_name = "ol".data then handle_list opts children out 0 true
        else if tag_name = "li".data then handle_list_item opts children out 0
        else if tag_name = "pre".data then .ok (handle_code_block children out)
        else if tag_name = "code".data then .ok (handle_inline_code children out)
        else if tag_name = "strong".data ∨ tag_name = "b".data then
          handle_bold opts children out depth
        else if tag_name = "em".data ∨ tag_name = "i".data then
          handle_italic opts children out depth
        else if tag_name = "table".data then handle_table opts children out depth
        else if tag_name = "script".data ∨ tag_name = "style".data ∨
            tag_name = "noscript".data then .ok out
        else traverse_list opts children out (depth + 1)
      | _ => .ok out
termination_by (sizeOf n, 2)

/-- `MarkdownConverter::handle_heading`: blank line, `#` markers, children,
then the produced suffix is normalised in place (`truncate` plus re-push). -/
def handle_heading (opts : ConversionOptions) (children : List Node)
    (level : Nat) (out : Str) (depth : Nat) : Except ConversionError Str := do
  let out1 := ensure_blank_line_before out
  let out2 := out1 ++ List.replicate level '#' ++ " ".data
  let start_len := out2.length
  let out3 ← traverse_list opts children out2 (depth + 1)
  .ok (out3.take start_len ++ normalize_text (out3.drop start_len) ++ "\n\n".data)
termination_by (sizeOf children, 2)

/-- `MarkdownConverter::handle_paragraph`. -/
def handle_paragraph (opts : ConversionOptions) (children : List Node)
    (out : Str) (depth : Nat) : Except ConversionError Str := do
  let out1 := ensure_blank_line_before out
  let start_len := out1.length
  let out2 ← traverse_list opts children out1 (depth + 1)
  .ok (if out2.length > start_len then out2 ++ "\n\n".data else out2)
termination_by (sizeOf children, 2)

/-- `MarkdownConverter::handle_bold`. -/
def handle_bold (opts : ConversionOptions) (children : List Node) (out : Str)
    (depth : Nat) : Except ConversionError Str := do
  let out2 ← traverse_list opts children (out ++ "**".data) (depth + 1)
  .ok (out2 ++ "**".data)
termination_by (sizeOf children, 2)

/-- `MarkdownConverter::handle_italic`. -/
def handle_italic (opts : ConversionOptions) (children : List Node) (out : Str)
    (depth : Nat) : Except ConversionError Str := do
  let out2 ← traverse_list opts children (out ++ "*".data) (depth + 1)
  .ok (out2 ++ "*".data)
termination_by (sizeOf children, 2)

/-- `MarkdownConverter::handle_list`. -/
def handle_list (opts : ConversionOptions) (children : List Node) (out : Str)
    (depth : Nat) (ordered : Bool) : Except ConversionError Str := do
  let out1 := ensure_blank_line_before out
  let out2 ← handle_list_li_loop opts children out1 depth ordered
  .ok (if ¬ strEndsWith out2 "\n\n".data then out2 ++ "\n".data else out2)
termination_by (sizeOf children, 2)

/-- The `li`-filtering child loop of `handle_list`. -/
def handle_list_li_loop (opts : ConversionOptions) (ns : List Node) (out : Str)
    (depth : Nat) (ordered : Bool) : Except ConversionError Str :=
  match ns with
  | [] => .ok out
  | c :: rest =>
    match c with
    | .element name _ cs =>
      if name = "li".data then do
        let out2 ← handle_list_item_with_marker opts cs out depth ordered
        handle_list_li_loop opts rest out2 depth ordered
      else handle_list_li_loop opts rest out depth ordered
    | _ => handle_list_li_loop opts rest out depth ordered
termination_by (sizeOf ns, 1)

/-- `MarkdownConverter::handle_list_item` (bare `li`: unordered marker). -/
def handle_list_item (opts : ConversionOptions) (children : List Node)
    (out : Str) (depth : Nat) : Except ConversionError Str :=
  handle_list_item_with_marker opts children out depth false
termination_by (sizeOf children, 2)

/-- `MarkdownConverter::handle_list_item_with_marker`. -/
def handle_list_item_with_marker (opts : ConversionOptions)
    (children : List Node) (out : Str) (depth : Nat) (ordered : Bool) :
    Except ConversionError Str := do
  let out1 := out ++ (List.replicate depth "  ".data).flatten
  let out2 := out1 ++ (if ordered then "1. ".data else "- ".data)
  let start_len := out2.length
  let out3 ← li_children_loop opts children out2 start_len depth ordered
  .ok (if ¬ strEndsWith out3 "\n".data then out3 ++ "\n".data else out3)
termination_by (sizeOf children, 1)

/-- Child loop of `handle_list_item_with_marker`: nested lists restart on a
fresh line; everything else goes through `traverse_node`. -/
def li_children_loop (opts : ConversionOptions) (ns : List Node) (out : Str)
    (start_len : Nat) (depth : Nat) (ordered : Bool) :
    Except ConversionError Str :=
  match ns with
  | [] => .ok out
  | c :: rest =>
    match c with
    | .element name a cs =>
      if name = "ul".data then do
        let out1 := if out.length > start_len ∧ ¬ strEndsWith out "\n".data then
            out ++ "\n".data
          else out
        let out2 ← handle_list opts cs out1 (depth + 1) false
        li_children_loop opts rest out2 start_len depth ordered
      else if name = "ol".data then do
        let out1 := if out.length > start_len ∧ ¬ strEndsWith out "\n".data then
            out ++ "\n".data
          else out
        let out2 ← handle_list opts cs out1 (depth + 1) true
        li_children_loop opts rest out2 start_len depth ordered
      else do
        let out2 ← traverse_node opts (.element name a cs) out (depth + 1)
        li_children_loop opts rest out2 start_len depth ordered
    | other => do
      let out2 ← traverse_node opts other out (depth + 1)
      li_children_loop opts rest out2 start_len depth ordered
termination_by (sizeOf ns, 0)

/-- `MarkdownConverter::handle_table` (GFM only; CommonMark treats the table
as a transparent container). -/
def handle_table (opts : ConversionOptions) (children : List Node) (out : Str)
    (depth : Nat) : Except ConversionError Str :=
  match opts.flavor with
  | .commonMark => traverse_list opts children out (depth + 1)
  | .gitHubFlavoredMarkdown => do
    let out1 := ensure_blank_line_before out
    let (headers, alignments, rows) ← table_children_loop opts children [] [] []
    if headers = [] then .ok out1
    else
      let alignments := alignments ++
        List.replicate (headers.length - alignments.length) TableAlignment.left
      let out2 := write_gfm_table out1 headers alignments rows
      .ok (if ¬ strEndsWith out2 "\n\n".data then out2 ++ "\n".data else out2)
termination_by (sizeOf children, 2)

/-- The `thead`/`tbody`/`tr` dispatch loop of `handle_table`, accumulating
headers, alignments and data rows.  In the `tbody` branch the source
duplicates the same extraction code in its `has_th` and no-`th` arms, so a
single arm models both. -/
def table_children_loop (opts : ConversionOptions) (ns : List Node)
    (headers : List Str) (alignments : List TableAlignment)
    (rows : List (List Str)) :
    Except ConversionError (List Str × List TableAlignment × List (List Str)) :=
  match ns with
  | [] => .ok (headers, alignments, rows)
  | c :: rest =>
    match c with
    | .element name _ cs =>
      if name = "thead".data then do
        let (h2, a2) ← extract_table_header opts cs headers alignments
        table_children_loop opts rest h2 a2 rows
      else if name = "tbody".data then
        if headers = [] then
          match hf : cs.find? nodeIsTr with
          | some firstTr =>
            match firstTr with
            | .element _ _ ftcs => do
              let (h2, a2) ← extract_table_row_as_header opts ftcs headers alignments
              let rows2 ← tbody_rows_after_first opts cs true rows
              table_children_loop opts rest h2 a2 rows2
            | _ => do
              let rows2 ← extract_table_rows opts cs rows
              table_children_loop opts rest headers alignments rows2
          | none => do
            let rows2 ← extract_table_rows opts cs rows
            table_children_loop opts rest headers alignments rows2
        else do
          let rows2 ← extract_table_rows opts cs rows
          table_children_loop opts rest headers alignments rows2
      else if name = "tr".data then
        if headers = [] then do
          let (h2, a2) ← extract_table_row_as_header opts cs headers alignments
          table_children_loop opts rest h2 a2 rows
        else do
          let row ← extract_table_row opts cs []
          table_children_loop opts rest headers alignments (rows ++ [row])
      else table_children_loop opts rest headers alignments rows
    | _ => table_children_loop opts rest headers alignments rows
termination_by (sizeOf ns, 1)
decreasing_by
  all_goals first
    | decreasing_tactic
    | (have hsz := List.sizeOf_lt_of_mem (List.mem_of_find?_eq_some hf)
       simp at hsz ⊢
       omega)

/-- The skip-first-`tr` data-row loop of the `tbody` branch. -/
def tbody_rows_after_first (opts : ConversionOptions) (ns : List Node)
    (is_first : Bool) (rows : List (List Str)) :
    Except ConversionError (List (List Str)) :=
  match ns with
  | [] => .ok rows
  | c :: rest =>
    match c with
    | .element name _ cs =>
      if name = "tr".data then
        if is_first then tbody_rows_after_first opts rest false rows
        else do
          let row ← extract_table_row opts cs []
          tbody_rows_after_first opts rest is_first (rows ++ [row])
      else tbody_rows_after_first opts rest is_first rows
    | _ => tbody_rows_after_first opts rest is_first rows
termination_by (sizeOf ns, 1)

/-- `MarkdownConverter::extract_table_header`: first `tr` of the `thead`. -/
def extract_table_header (opts : ConversionOptions) (ns : List Node)
    (headers : List Str) (alignments : List TableAlignment) :
    Except ConversionError (List Str × List TableAlignment) :=
  match ns with
  | [] => .ok (headers, alignments)
  | c :: rest =>
    match c with
    | .element name _ cs =>
      if name = "tr".data then extract_table_row_as_header opts cs headers alignments
      else extract_table_header opts rest headers alignments
    | _ => extract_table_header opts rest headers alignments
termination_by (sizeOf ns, 1)

/-- `MarkdownConverter::extract_table_row_as_header`: one header string and
one alignment per `th`/`td` cell (cell content via `traverse_node` at depth
0 into a fresh buffer, then trimmed). -/
def extract_table_row_as_header (opts : ConversionOptions) (ns : List Node)
    (headers : List Str) (alignments : List TableAlignment) :
    Except ConversionError (List Str × List TableAlignment) :=
  match ns with
  | [] => .ok (headers, alignments)
  | c :: rest =>
    match c with
    | .element name attrs cs =>
      if name = "th".data ∨ name = "td".data then do
        let cell_output ← traverse_list opts cs [] 0
        extract_table_row_as_header opts rest (headers ++ [rustTrim cell_output])
          (alignments ++ [extract_alignment attrs])
      else extract_table_row_as_header opts rest headers alignments
    | _ => extract_table_row_as_header opts rest headers alignments
termination_by (sizeOf ns, 2)

/-- `MarkdownConverter::extract_table_rows`: every `tr` child becomes a data
row. -/
def extract_table_rows (opts : ConversionOptions) (ns : List Node)
    (rows : List (List Str)) : Except ConversionError (List (List Str)) :=
  match ns with
  | [] => .ok rows
  | c :: rest =>
    match c with
    | .element name _ cs =>
      if name = "tr".data then do
        let row ← extract_table_row opts cs []
        extract_table_rows opts rest (rows ++ [row])
      else extract_table_rows opts rest rows
    | _ => extract_table_rows opts rest rows
termination_by (sizeOf ns, 1)

/-- `MarkdownConverter::extract_table_row`: one trimmed string per `td`/`th`
cell. -/
def extract_table_row (opts : ConversionOptions) (ns : List Node)
    (cells : List Str) : Except ConversionError (List Str) :=
  match ns with
  | [] => .ok cells
  | c :: rest =>
    match c with
    | .element name _ cs =>
      if name = "td".data ∨ name = "th".data then do
        let cell_output ← traverse_list opts cs [] 0
        extract_table_row opts rest (cells ++ [rustTrim cell_output])
      else extract_table_row opts rest cells
    | _ => extract_table_row opts rest cells
termination_by (sizeOf ns, 2)

end

mutual

/-- `MarkdownConverter::traverse_node_with_context`: `increment_and_check`
first, then the same dispatch; the element handlers other than the default
container case do not consult the context (they call the plain handlers). -/
def traverse_node_with_context (opts : ConversionOptions) (n : Node)
    (out : Str) (depth : Nat) (ctx : ConversionContext) :
    Except ConversionError (Str × ConversionContext) := do
  let ctx ← increment_and_check ctx
  match n with
  | .document children => traverse_list_with_context opts children out depth ctx
  | .element name attrs children =>
    handle_element_with_context opts (.element name attrs children) name out depth ctx
  | .text contents => .ok (text_node_append opts contents out, ctx)
  | .comment => .ok (out, ctx)
  | .doctype => .ok (out, ctx)
  | .processingInstruction => .ok (out, ctx)
termination_by (sizeOf n, 1)

/-- Child loop of `traverse_node_with_context`. -/
def traverse_list_with_context (opts : ConversionOptions) (ns : List Node)
    (out : Str) (depth : Nat) (ctx : ConversionContext) :
    Except ConversionError (Str × ConversionContext) :=
  match ns with
  | [] => .ok (out, ctx)
  | c :: rest => do
    let (out2, ctx2) ← traverse_node_with_context opts c out depth ctx
    traverse_list_with_context opts rest out2 depth ctx2
termination_by (sizeOf ns, 0)

/-- `MarkdownConverter::handle_element_with_context`: identical dispatch to
`handle_element`; only the default container branch threads the context. -/
def handle_element_with_context (opts : ConversionOptions) (n : Node)
    (tag_name : Str) (out : Str) (depth : Nat) (ctx : ConversionContext) :
    Except ConversionError (Str × ConversionContext) :=
  match check_element tag_name with
  | .remove => .ok (out, ctx)
  | _ =>
    match validate_depth depth with
    | .error msg => .error (.invalidInput msg)
    | .ok _ =>
      match n with
      | .element _ attrs children =>
        if tag_name = "h1".data then
          (handle_heading opts children 1 out depth).map (fun s => (s, ctx))
        else if tag_name = "h2".data then
          (handle_heading opts children 2 out depth).map (fun s => (s, ctx))
        else if tag_name = "h3".data then
          (handle_heading opts children 3 out depth).map (fun s => (s, ctx))
        else if tag_name = "h4".data then
          (handle_heading opts children 4 out depth).map (fun s => (s, ctx))
        else if tag_name = "h5".data then
          (handle_heading opts children 5 out depth).map (fun s => (s, ctx))
        else if tag_name = "h6".data then
          (handle_heading opts children 6 out depth).map (fun s => (s, ctx))
        else if tag_name = "p".data then
          (handle_paragraph opts children out depth).map (fun s => (s, ctx))
        else if tag_name = "a".data then .ok (handle_link attrs children out, ctx)
        else if tag_name = "img".data then .ok (handle_image attrs out, ctx)
        else if tag_name = "ul".data then
          (handle_list opts children out 0 false).map (fun s => (s, ctx))
        else if tag_name = "ol".data then
          (handle_list opts children out 0 true).map (fun s => (s, ctx))
        else if tag_name = "li".data then
          (handle_list_item opts children out 0).map (fun s => (s, ctx))
        else if tag_name = "pre".data then .ok (handle_code_block children out, ctx)
        else if tag_name = "code".data then .ok (handle_inline_code children out, ctx)
        else if tag_name = "strong".data ∨ tag_name = "b".data then
          (handle_bold opts children out depth).map (fun s => (s, ctx))
        else if tag_name = "em".data ∨ tag_name = "i".data then
          (handle_italic opts children out depth).map (fun s => (s, ctx))
        else if tag_name = "table".data then
          (handle_table opts children out depth).map (fun s => (s, ctx))
        else if tag_name = "script".data ∨ tag_name = "style".data ∨
            tag_name = "noscript".data then .ok (out, ctx)
        else traverse_list_with_context opts children out (depth + 1) ctx
      | _ => .ok (out, ctx)
termination_by (sizeOf n, 0)

end

/-- `MarkdownConverter::convert_with_context`: optional front matter with a
timeout check, traversal from the document root, a timeout check, output
normalisation, a final timeout check. -/
def convert_with_context (opts : ConversionOptions) (dom : Node)
    (ctx : ConversionContext) : Except ConversionError Str := do
  let out : Str := []
  let out ←
    if opts.include_front_matter ∧ opts.extract_metadata then do
      let metadata := metadata_extract opts.base_url opts.resolve_relative_urls dom
      let out2 := write_front_matter out metadata
      let _u ← check_timeout ctx
      pure out2
    else pure out
  let (out2, ctx2) ← traverse_node_with_context opts dom out 0 ctx
  let _u ← check_timeout ctx2
  let markdown := normalize_output out2
  let _u ← check_timeout ctx2
  .ok markdown

/-- `MarkdownConverter::convert`: a context with no timeout (the `elapsed`
model value is irrelevant once `timeout = 0`). -/
def convert (opts : ConversionOptions) (dom : Node) : Except ConversionError Str :=
  convert_with_context opts dom ⟨0, 0, 0⟩

/-! ## `ffi.rs`

Strings crossing the boundary are `(pointer, length)` pairs; a `NULL`
pointer becomes `none`.  `optional_utf8` turns an invalid-UTF-8 optional
string into `None` (`.ok()`), so the post-validation view of the two optional
option strings is already `Option Str`.  `parse_html_with_charset` wraps the
external `html5ever` parser and the charset resolver; `convert_inner` is
embedded relative to that call's outcome, which is passed as the `parsed`
argument.  `elapsed` is the context's observed clock (see
`ConversionContext`). -/

/-- `MarkdownOptions` from `ffi.rs`, after pointer validation. -/
structure MarkdownOptionsFfi where
  flavor : Nat
  timeout_ms : Nat
  generate_etag : Nat
  estimate_tokens : Nat
  front_matter : Nat
  content_type : Option Str
  base_url : Option Str

/-- `ConversionOutput` from `ffi.rs` (markdown still in `String` form; the
byte length is recovered with `utf8Encode`). -/
structure ConversionOutput where
  markdown : Str
  etag : Option Str
  token_estimate : Nat

/-- `MarkdownResult` from `ffi.rs`: `none` models a `NULL` pointer. -/
structure MarkdownResult where
  markdown : Option Str
  markdown_len : Nat
  etag : Option Str
  etag_len : Nat
  token_estimate : Nat
  error_code : Nat
  error_message : Option Str
  error_len : Nat

/-- UTF-8 encoding of one scalar value. -/
def utf8EncodeChar (c : Char) : List Nat :=
  let n := c.toNat
  if n < 128 then [n]
  else if n < 2048 then [192 + n / 64, 128 + n % 64]
  else if n < 65536 then [224 + n / 4096, 128 + n / 64 % 64, 128 + n % 64]
  else [240 + n / 262144, 128 + n / 4096 % 64, 128 + n / 64 % 64, 128 + n % 64]

/-- UTF-8 encoding of a string (`String::into_bytes`). -/
def utf8Encode (s : Str) : List Nat := s.flatMap utf8EncodeChar

/-- `reset_result` from `ffi.rs`: the cleared record. -/
def reset_result : MarkdownResult := ⟨none, 0, none, 0, 0, 0, none, 0⟩

/-- `set_error_result` from `ffi.rs` (applied to a reset record). -/
def set_error_result (r : MarkdownResult) (error_code : Nat) (msg : Str) :
    MarkdownResult :=
  { r with
    error_code := error_code
    error_len := msg.length
    error_message := some msg }

/-- `set_success_result` from `ffi.rs` (applied to a reset record). -/
def set_success_result (r : MarkdownResult) (output : ConversionOutput) :
    MarkdownResult :=
  { r with
    markdown_len := (utf8Encode output.markdown).length
    markdown := some output.markdown
    token_estimate := output.token_estimate
    error_code := 0
    error_message := none
    error_len := 0
    etag := output.etag
    etag_len := (match output.etag with | some e => e.length | none => 0) }

/-- `convert_inner` from `ffi.rs`: the empty-input short circuit, then parse
(outcome passed in), context construction, post-parse timeout check,
option translation, conversion, token estimate and ETag. -/
def convert_inner (html : List Nat) (parsed : Except ConversionError Node)
    (o : MarkdownOptionsFfi) (elapsed : Nat) :
    Except ConversionError ConversionOutput :=
  if html = [] then
    let token_estimate := if o.estimate_tokens ≠ 0 then estimate [] else 0
    let etag := if o.generate_etag ≠ 0 then some (generate []) else none
    .ok ⟨[], etag, token_estimate⟩
  else do
    let dom ← parsed
    let ctx : ConversionContext := ⟨o.timeout_ms, 0, elapsed⟩
    let _u ← check_timeout ctx
    let flavor := if o.flavor = 1 then MarkdownFlavor.gitHubFlavoredMarkdown
      else MarkdownFlavor.commonMark
    let conv_options : ConversionOptions :=
      ⟨flavor, o.front_matter ≠ 0, o.front_matter ≠ 0, true, true,
        o.base_url, o.base_url.isSome⟩
    let markdown ← convert_with_context conv_options dom ctx
    let token_estimate := if o.estimate_tokens ≠ 0 then estimate markdown else 0
    let etag := if o.generate_etag ≠ 0 then some (generate (utf8Encode markdown))
      else none
    .ok ⟨markdown, etag, token_estimate⟩

/-- `markdown_convert` from `ffi.rs`, after the `result` pointer validation
and reset: the packaging of the `convert_inner` outcome.  Null-pointer
failures and caught panics enter the same error arm with their own code and
message. -/
def markdown_convert (conv : Except ConversionError ConversionOutput) :
    MarkdownResult :=
  match conv with
  | .ok output => set_success_result reset_result output
  | .error e => set_error_result reset_result e.code e.display

/-! ## Arithmetic facts about the `f32` rounding used by the token estimator -/

theorem roundAt_lower (k n : Nat) : n / 2 ^ k * 2 ^ k ≤ roundAt k n := by
  unfold roundAt
  split
  · exact Nat.mul_le_mul_right _ (by omega)
  · exact Nat.le_refl _

theorem roundAt_upper (k n : Nat) : roundAt k n ≤ (n / 2 ^ k + 1) * 2 ^ k := by
  unfold roundAt
  split
  · exact Nat.le_refl _
  · exact Nat.mul_le_mul_right _ (by omega)

theorem roundAt_le_succ (k n : Nat) : roundAt k n ≤ roundAt k (n + 1) := by
  have hQ0 : 0 < 2 ^ k := Nat.two_pow_pos k
  have hr : n % 2 ^ k < 2 ^ k := Nat.mod_lt _ hQ0
  have hdm : 2 ^ k * (n / 2 ^ k) + n % 2 ^ k = n := Nat.div_add_mod n (2 ^ k)
  by_cases hcase : n % 2 ^ k + 1 < 2 ^ k
  · have hrepr : n + 1 = 2 ^ k * (n / 2 ^ k) + (n % 2 ^ k + 1) := by omega
    have hdiv : (n + 1) / 2 ^ k = n / 2 ^ k := by
      rw [hrepr, Nat.mul_add_div hQ0, Nat.div_eq_of_lt hcase, Nat.add_zero]
    have hmod : (n + 1) % 2 ^ k = n % 2 ^ k + 1 := by
      rw [hrepr, Nat.mul_add_mod, Nat.mod_eq_of_lt hcase]
    unfold roundAt
    rw [hdiv, hmod]
    by_cases hc : 2 ^ (k - 1) < n % 2 ^ k ∨
        (n % 2 ^ k = 2 ^ (k - 1) ∧ n / 2 ^ k % 2 = 1)
    · have hlt : 2 ^ (k - 1) < n % 2 ^ k + 1 := by
        rcases hc with h | ⟨h, _⟩ <;> omega
      rw [if_pos hc, if_pos (Or.inl hlt)]
    · rw [if_neg hc]
      split
      · exact Nat.mul_le_mul_right _ (by omega)
      · exact Nat.le_refl _
  · have hdistr : 2 ^ k * (n / 2 ^ k + 1) = 2 ^ k * (n / 2 ^ k) + 2 ^ k := by ring
    have hrepr : n + 1 = 2 ^ k * (n / 2 ^ k + 1) := by omega
    have hdiv : (n + 1) / 2 ^ k = n / 2 ^ k + 1 := by
      rw [hrepr, Nat.mul_div_cancel_left _ hQ0]
    calc roundAt k n ≤ (n / 2 ^ k + 1) * 2 ^ k := roundAt_upper k n
      _ ≤ roundAt k (n + 1) := by
          have := roundAt_lower k (n + 1)
          rw [hdiv] at this
          exact this

theorem roundF32_le_succ (n : Nat) : roundF32 n ≤ roundF32 (n + 1) := by
  unfold roundF32
  by_cases h1 : n + 1 < 2 ^ 24
  · rw [if_pos (by omega : n < 2 ^ 24), if_pos h1]
    omega
  · rw [if_neg h1]
    by_cases h0 : n < 2 ^ 24
    · have hn1 : n + 1 = 2 ^ 24 := by omega
      rw [if_pos h0]
      have hne : n + 1 ≠ 0 := by omega
      have hlog : (n + 1).log2 = 24 := by
        have ha : 24 ≤ (n + 1).log2 := (Nat.le_log2 hne).mpr (by rw [hn1])
        have hb : (n + 1).log2 < 25 := (Nat.log2_lt hne).mpr (by rw [hn1]; norm_num)
        omega
      rw [hlog]
      have hlow := roundAt_lower (24 - 23) (n + 1)
      have hv : n + 1 = 16777216 := by rw [hn1]; norm_num
      have hdm : (n + 1) / 2 ^ (24 - 23) * 2 ^ (24 - 23) = n + 1 := by
        norm_num
        omega
      omega
    · rw [if_neg h0]
      have h24 : (16777216 : Nat) ≤ n := by
        have := Nat.not_lt.mp h0
        norm_num at this
        exact this
      have hne : n ≠ 0 := by omega
      have he1 : 2 ^ n.log2 ≤ n := (Nat.le_log2 hne).mp (Nat.le_refl _)
      have he2 : n < 2 ^ (n.log2 + 1) := (Nat.log2_lt hne).mp (by omega)
      have he24 : 24 ≤ n.log2 := (Nat.le_log2 hne).mpr (by norm_num; omega)
      have hne1 : n + 1 ≠ 0 := by omega
      by_cases hsame : n + 1 < 2 ^ (n.log2 + 1)
      · have hlog : (n + 1).log2 = n.log2 := by
          have ha : n.log2 ≤ (n + 1).log2 :=
            (Nat.le_log2 hne1).mpr (Nat.le_trans he1 (by omega))
          have hb : (n + 1).log2 < n.log2 + 1 := (Nat.log2_lt hne1).mpr hsame
          omega
        rw [hlog]
        exact roundAt_le_succ _ n
      · have hn1 : n + 1 = 2 ^ (n.log2 + 1) := by omega
        have hlog : (n + 1).log2 = n.log2 + 1 := by
          have ha : n.log2 + 1 ≤ (n + 1).log2 :=
            (Nat.le_log2 hne1).mpr (by rw [hn1])
          have hb : (n + 1).log2 < n.log2 + 2 := (Nat.log2_lt hne1).mpr (by
            rw [hn1]
            exact Nat.pow_lt_pow_right (by norm_num) (by omega))
          omega
        rw [hlog]
        have hk' : n.log2 + 1 - 23 = n.log2 - 22 := by omega
        have hdvd : (2 : Nat) ^ (n.log2 - 22) ∣ 2 ^ (n.log2 + 1) :=
          pow_dvd_pow 2 (by omega)
        have hsplit : 2 ^ (n.log2 + 1) = 2 ^ (n.log2 - 22) * 2 ^ 23 := by
          rw [← Nat.pow_add]
          congr 1
          omega
        have hR : roundAt (n.log2 + 1 - 23) (n + 1) = 2 ^ (n.log2 + 1) := by
          unfold roundAt
          have hmod : (n + 1) % 2 ^ (n.log2 + 1 - 23) = 0 := by
            rw [hn1, hk', hsplit, Nat.mul_mod_right]
          have hdiv : (n + 1) / 2 ^ (n.log2 + 1 - 23) * 2 ^ (n.log2 + 1 - 23) =
              2 ^ (n.log2 + 1) := by
            rw [hn1, hk', hsplit, Nat.mul_div_cancel_left _ (Nat.two_pow_pos _),
              Nat.mul_comm]
          rw [hmod]
          have hcond : ¬ (2 ^ (n.log2 + 1 - 23 - 1) < 0 ∨
              (0 = 2 ^ (n.log2 + 1 - 23 - 1) ∧
                (n + 1) / 2 ^ (n.log2 + 1 - 23) % 2 = 1)) := by
            rintro (h | ⟨h, _⟩)
            · exact Nat.not_lt_zero _ h
            · have h2 := Nat.one_le_two_pow (n := n.log2 + 1 - 23 - 1)
              omega
          rw [if_neg hcond, hdiv]
        rw [hR]
        have hexp : 2 ^ (n.log2 - 23) * 2 ^ 24 = 2 ^ (n.log2 + 1) := by
          rw [← Nat.pow_add]
          congr 1
          omega
        have hqlt : n / 2 ^ (n.log2 - 23) < 2 ^ 24 := by
          apply Nat.div_lt_of_lt_mul
          calc n < 2 ^ (n.log2 + 1) := he2
            _ = 2 ^ (n.log2 - 23) * 2 ^ 24 := hexp.symm
        calc roundAt (n.log2 - 23) n
            ≤ (n / 2 ^ (n.log2 - 23) + 1) * 2 ^ (n.log2 - 23) := roundAt_upper _ _
          _ ≤ 2 ^ 24 * 2 ^ (n.log2 - 23) := Nat.mul_le_mul_right _ (by omega)
          _ = 2 ^ (n.log2 + 1) := by rw [Nat.mul_comm]; exact hexp

theorem roundF32_mono {a b : Nat} (h : a ≤ b) : roundF32 a ≤ roundF32 b := by
  induction b with
  | zero =>
    have : a = 0 := by omega
    rw [this]
  | succ m ih =>
    rcases Nat.lt_or_ge a (m + 1) with hlt | hge
    · exact Nat.le_trans (ih (by omega)) (roundF32_le_succ m)
    · have : a = m + 1 := by omega
      rw [this]

/-! ## ETag format lemmas -/

theorem wordsToBytes_length (ws : List Nat) : (wordsToBytes ws).length = 4 * ws.length := by
  induction ws with
  | nil => rfl
  | cons w rest ih =>
    simp [wordsToBytes, bytesOfWord] at ih ⊢
    omega

theorem blake3Hash_length (input : List Nat) : (blake3Hash input).length = 32 := by
  unfold blake3Hash b3rootBytes32
  rw [wordsToBytes_length]
  rfl

theorem hexDigits_getD_mem (n : Nat) : hexDigits.getD n '0' ∈ hexDigits := by
  rcases Nat.lt_or_ge n hexDigits.length with h | h
  · rw [List.getD_eq_getElem _ _ h]
    exact List.getElem_mem h
  · rw [List.getD_eq_default _ _ h]
    decide

theorem hexEncode_length (bs : List Nat) : (hexEncode bs).length = 2 * bs.length := by
  induction bs with
  | nil => rfl
  | cons b rest ih =>
    simp [hexEncode, hexEncodeByte] at ih ⊢
    omega

theorem hexEncode_mem (bs : List Nat) : ∀ c ∈ hexEncode bs, c ∈ hexDigits := by
  induction bs with
  | nil => intro c hc; simp [hexEncode] at hc
  | cons b rest ih =>
    intro c hc
    simp only [hexEncode, List.flatMap_cons, List.mem_append] at hc
    rcases hc with hc | hc
    · simp only [hexEncodeByte, List.mem_cons, List.mem_singleton] at hc
      rcases hc with rfl | hc
      · exact hexDigits_getD_mem _
      · rcases hc with rfl | hfalse
        · exact hexDigits_getD_mem _
        · simp at hfalse
    · exact ih c hc

/-- Claim C5: for all byte strings `a` and `b`, `a = b` implies
`generate a = generate b` (the generator is a function of the bytes alone);
and for every input, the generated ETag is 34 characters, the first and last
are double quotes, and the middle 32 are lowercase hexadecimal digits. -/
theorem claim_C5_etag_deterministic_format :
    (∀ a b : List Nat, a = b → generate a = generate b) ∧
    ∀ input : List Nat, ∃ mid : Str,
      generate input = Char.ofNat 34 :: (mid ++ [Char.ofNat 34]) ∧
      (generate input).length = 34 ∧ mid.length = 32 ∧
      ∀ c ∈ mid, c ∈ hexDigits := by
  constructor
  · intro a b h
    rw [h]
  · intro input
    refine ⟨hexEncode ((blake3Hash input).take 16), rfl, ?_, ?_, ?_⟩
    · unfold generate
      have h1 : ((blake3Hash input).take 16).length = 16 := by
        rw [List.length_take, blake3Hash_length]
        omega
      have h2 := hexEncode_length ((blake3Hash input).take 16)
      simp [h1, h2]
    · rw [hexEncode_length, List.length_take, blake3Hash_length]
      omega
    · exact hexEncode_mem _

/-- Witness for claim C5 at a concrete input, discharging the equality
hypothesis of the determinism part. -/
theorem claim_C5_witness :
    ([104, 105] : List Nat) = [104, 105] ∧
    generate [104, 105] = generate [104, 105] :=
  ⟨rfl, claim_C5_etag_deterministic_format.1 [104, 105] [104, 105] rfl⟩

/-! ## Cooperative timeout checkpoint -/

/-- Claim C6: for a context whose non-zero deadline has already elapsed and
whose node counter starts at zero, the increment-and-check checkpoint
returns `Ok` on each of the first 99 increments and `Timeout` at exactly the
100th. -/
theorem claim_C6_timeout_checkpoint (ctx : ConversionContext)
    (htz : ctx.timeout ≠ 0) (hel : ctx.elapsed > ctx.timeout)
    (hnc : ctx.node_count = 0) :
    (∀ k, k ≤ 99 → iterate_increment_and_check ctx k =
      .ok { ctx with node_count := k }) ∧
    iterate_increment_and_check ctx 100 = .error .timeout := by
  have main : ∀ k, k ≤ 99 → iterate_increment_and_check ctx k =
      .ok { ctx with node_count := k } := by
    intro k
    induction k with
    | zero =>
      intro _
      show Except.ok ctx = _
      cases ctx
      simp at hnc
      simp [hnc]
    | succ m ih =>
      intro hm
      rw [iterate_increment_and_check, ih (by omega)]
      show increment_and_check _ = _
      unfold increment_and_check
      have h1 : (m + 1) % 4294967296 = m + 1 := Nat.mod_eq_of_lt (by omega)
      have h2 : (m + 1) % 100 = m + 1 := Nat.mod_eq_of_lt (by omega)
      simp [h1, h2]
  refine ⟨main, ?_⟩
  rw [show (100 : Nat) = 99 + 1 from rfl, iterate_increment_and_check,
    main 99 (by omega)]
  show increment_and_check _ = _
  unfold increment_and_check check_timeout
  simp [htz, hel]

/-- Witness for claim C6: a context with timeout 5, elapsed clock 10 and a
zero node counter. -/
theorem claim_C6_witness :
    iterate_increment_and_check ⟨5, 0, 10⟩ 100 = .error .timeout ∧
    iterate_increment_and_check ⟨5, 0, 10⟩ 99 = .ok ⟨5, 99, 10⟩ :=
  ⟨(claim_C6_timeout_checkpoint ⟨5, 0, 10⟩ (by decide) (by decide) rfl).2,
    (claim_C6_timeout_checkpoint ⟨5, 0, 10⟩ (by decide) (by decide) rfl).1 99
      (by omega)⟩

/-! ## Token estimate monotonicity -/

/-- Claim C9: for all strings `u` and `v`, the token estimate of `u ++ v` is
at least the token estimate of `u`, where the estimate is the embedded `f32`
computation `ceil(count / 4.0) as u32` of `TokenEstimator::estimate`. -/
theorem claim_C9_token_estimate_monotone (u v : Str) :
    estimate u ≤ estimate (u ++ v) := by
  unfold estimate
  have h1 : roundF32 u.length ≤ roundF32 (u ++ v).length :=
    roundF32_mono (by simp)
  exact min_le_min (Nat.le_refl _) (Nat.div_le_div_right (by omega))

/-! ## Output normaliser: trailing-newline discipline -/

theorem strEndsWith_iff (s p : Str) : strEndsWith s p = true ↔ p <:+ s := by
  simp [strEndsWith, List.isSuffixOf_iff_suffix]

theorem pop_extra_newlines_ends : ∀ n (s : Str), s.length ≤ n →
    strEndsWith s "\n".data = true →
    strEndsWith (pop_extra_newlines s) "\n".data = true ∧
    strEndsWith (pop_extra_newlines s) "\n\n".data = false := by
  intro n
  induction n with
  | zero =>
    intro s hlen h
    have hs : s = [] := List.length_eq_zero.mp (by omega)
    subst hs
    exact absurd h (by decide)
  | succ m ih =>
    intro s hlen h
    rw [pop_extra_newlines]
    by_cases hd : strEndsWith s "\n\n".data = true
    · rw [dif_pos hd]
      have hsuf : "\n\n".data <:+ s := (strEndsWith_iff _ _).mp hd
      obtain ⟨t, ht⟩ := hsuf
      have hd2 : ("\n\n".data : Str) = ['\n', '\n'] := rfl
      have hdl : s.dropLast = t ++ "\n".data := by
        rw [← ht, hd2]
        rw [show t ++ ['\n', '\n'] = (t ++ ['\n']) ++ ['\n'] by simp,
          List.dropLast_concat]
      apply ih
      · have hlen2 := congrArg List.length ht
        simp [hd2] at hlen2
        rw [hdl]
        simp
        omega
      · rw [hdl]
        exact (strEndsWith_iff _ _).mpr (List.suffix_append t "\n".data)
    · rw [dif_neg (by simpa using hd)]
      exact ⟨h, by simpa using hd⟩

theorem trailing_after_step6 (result : Str) :
    strEndsWith (if ¬ strEndsWith result "\n".data then result ++ "\n".data
      else pop_extra_newlines result) "\n".data = true ∧
    strEndsWith (if ¬ strEndsWith result "\n".data then result ++ "\n".data
      else pop_extra_newlines result) "\n\n".data = false := by
  by_cases hr : strEndsWith result "\n".data = true
  · rw [if_neg (by simp [hr])]
    exact pop_extra_newlines_ends result.length result (Nat.le_refl _) hr
  · rw [if_pos (by simpa using hr)]
    constructor
    · exact (strEndsWith_iff _ _).mpr (List.suffix_append _ _)
    · by_contra hcon
      rw [Bool.not_eq_false] at hcon
      have hsuf : "\n\n".data <:+ result ++ "\n".data := (strEndsWith_iff _ _).mp hcon
      obtain ⟨t, ht⟩ := hsuf
      have hd1 : ("\n".data : Str) = ['\n'] := rfl
      have hd2 : ("\n\n".data : Str) = ['\n', '\n'] := rfl
      rw [hd1, hd2] at ht
      have heq := congrArg List.dropLast ht
      rw [show t ++ ['\n', '\n'] = (t ++ ['\n']) ++ ['\n'] by simp,
        List.dropLast_concat, List.dropLast_concat] at heq
      apply hr
      rw [← heq, hd1]
      exact (strEndsWith_iff _ _).mpr (List.suffix_append t ['\n'])

/-- Every normalised output ends with exactly one line feed. -/
theorem normalize_output_trailing (out : Str) :
    strEndsWith (normalize_output out) "\n".data = true ∧
    strEndsWith (normalize_output out) "\n\n".data = false := by
  unfold normalize_output
  exact trailing_after_step6 _

/-- Every success of `convert_with_context` is a normalised buffer. -/
theorem convert_with_context_ok_shape (opts : ConversionOptions) (dom : Node)
    (ctx : ConversionContext) (md : Str)
    (h : convert_with_context opts dom ctx = .ok md) :
    ∃ s, md = normalize_output s := by
  unfold convert_with_context at h
  simp only [bind, Except.bind, pure, Except.pure] at h
  repeat' split at h
  all_goals first
    | exact Except.noConfusion h
    | (injection h with h2; exact ⟨_, h2.symm⟩)

/-! ## Claim C2: fenced code blocks in the output normaliser -/

theorem pop_extra_newlines_eq_self (s : Str)
    (h : strEndsWith s "\n\n".data = false) : pop_extra_newlines s = s := by
  rw [pop_extra_newlines]
  simp [h]

/-- Claim C2 counterexample: two consecutive blank lines inside a backtick
fence are collapsed to one by `normalize_output`, contradicting the claimed
exemption of fenced content from blank-line collapsing (step 4). -/
theorem claim_C2_counterexample :
    normalize_output "```\nA\n\n\nB\n```\n".data = "```\nA\n\nB\n```\n".data ∧
    "```\nA\n\nB\n```\n".data ≠ ("```\nA\n\n\nB\n```\n".data : Str) := by
  constructor
  · show pop_extra_newlines "```\nA\n\nB\n```\n".data = "```\nA\n\nB\n```\n".data
    exact pop_extra_newlines_eq_self _ (by decide)
  · decide

/-- Claim C2 (corrected): the fence tracker only exempts fenced content from
space-run collapsing (step 5).  Blank lines collapse regardless of the
`in_code_block` flag: after a blank line, a further blank line adds nothing
to the buffer even inside a fence; a non-blank, non-fence-delimiter line
inside a fence is emitted with its trailing whitespace stripped but its
inner spacing untouched. -/
theorem claim_C2_blank_collapse_in_fences (acc line : Str) (in_code : Bool) :
    (rustTrimEnd line = [] →
      normalize_output_step (acc, true, in_code) line =
        (acc, true,
          if strStartsWith (rustTrimStart line) "```".data then ! in_code
          else in_code)) ∧
    (strStartsWith (rustTrimStart line) "```".data = false →
      rustTrimEnd line ≠ [] →
      ∀ prev_blank : Bool,
      normalize_output_step (acc, prev_blank, true) line =
        (acc ++ rustTrimEnd line ++ "\n".data, false, true)) := by
  constructor
  · intro htr
    simp [normalize_output_step, htr]
  · intro hf htr prev_blank
    simp [normalize_output_step, hf, htr]

theorem claim_C2_witness :
    normalize_output_step ("X".data, true, true) [] = ("X".data, true, true) ∧
    normalize_output_step ("X".data, false, true) "a  b".data =
      ("X".data ++ rustTrimEnd "a  b".data ++ "\n".data, false, true) := by
  constructor
  · rw [(claim_C2_blank_collapse_in_fences "X".data [] true).1 (by decide)]
    decide
  · exact (claim_C2_blank_collapse_in_fences "X".data "a  b".data true).2
      (by decide) (by decide) false

/-! ## Claim C3: result shape at the external boundary -/

theorem ConversionError.code_ne_zero (e : ConversionError) : e.code ≠ 0 := by
  cases e <;> simp [ConversionError.code]

theorem convert_inner_ok_markdown (html : List Nat)
    (parsed : Except ConversionError Node) (o : MarkdownOptionsFfi)
    (elapsed : Nat) (output : ConversionOutput) (hh : html ≠ [])
    (h : convert_inner html parsed o elapsed = .ok output) :
    ∃ opts dom ctx, convert_with_context opts dom ctx = .ok output.markdown := by
  rw [convert_inner, if_neg hh] at h
  simp only [bind, Except.bind] at h
  repeat' split at h
  all_goals first
    | exact Except.noConfusion h
    | (injection h with h2
       subst h2
       exact ⟨_, _, _, by assumption⟩)

/-- Claim C3 counterexample: for empty byte input the boundary returns a
success whose markdown is the empty string, which does not end with a line
feed — the claimed trailing-newline guarantee does not extend to this
success result. -/
theorem claim_C3_counterexample :
    (markdown_convert
      (convert_inner [] (.error (.parseError [])) ⟨0, 0, 0, 0, 0, none, none⟩
        0)).error_code = 0 ∧
    (markdown_convert
      (convert_inner [] (.error (.parseError [])) ⟨0, 0, 0, 0, 0, none, none⟩
        0)).markdown = some [] ∧
    strEndsWith [] "\n".data = false :=
  ⟨rfl, rfl, rfl⟩

/-- Claim C3 (corrected): on error every output field of the boundary
result is empty; on success the markdown is present and either the input
bytes were empty and the markdown is the empty string (no trailing line
feed), or the markdown ends with exactly one line feed. -/
theorem claim_C3_boundary_result_shape (html : List Nat)
    (parsed : Except ConversionError Node) (o : MarkdownOptionsFfi)
    (elapsed : Nat) (res : MarkdownResult)
    (hres : res = markdown_convert (convert_inner html parsed o elapsed)) :
    (res.error_code ≠ 0 →
      res.markdown = none ∧ res.markdown_len = 0 ∧ res.etag = none ∧
      res.etag_len = 0 ∧ res.token_estimate = 0) ∧
    (res.error_code = 0 →
      ∃ md, res.markdown = some md ∧
        ((html = [] ∧ md = []) ∨
          (strEndsWith md "\n".data = true ∧
           strEndsWith md "\n\n".data = false))) := by
  subst hres
  cases hconv : convert_inner html parsed o elapsed with
  | error e =>
    constructor
    · intro _
      simp [markdown_convert, set_error_result, reset_result]
    · intro h0
      exfalso
      apply ConversionError.code_ne_zero e
      simpa [markdown_convert, set_error_result, reset_result] using h0
  | ok output =>
    constructor
    · intro hne
      exfalso
      apply hne
      simp [markdown_convert, set_success_result, reset_result]
    · intro _
      refine ⟨output.markdown,
        by simp [markdown_convert, set_success_result, reset_result], ?_⟩
      by_cases hh : html = []
      · left
        refine ⟨hh, ?_⟩
        rw [convert_inner, if_pos hh] at hconv
        injection hconv with h2
        rw [← h2]
      · right
        obtain ⟨opts2, dom2, ctx2, hcw⟩ :=
          convert_inner_ok_markdown html parsed o elapsed output hh hconv
        obtain ⟨s, hs⟩ :=
          convert_with_context_ok_shape opts2 dom2 ctx2 output.markdown hcw
        rw [hs]
        exact normalize_output_trailing s

theorem claim_C3_witness :
    (markdown_convert
      (convert_inner [65] (.error (.parseError [])) ⟨0, 0, 0, 0, 0, none, none⟩
        0)).markdown = none ∧
    (markdown_convert
      (convert_inner [65] (.error (.parseError [])) ⟨0, 0, 0, 0, 0, none, none⟩
        0)).etag = none := by
  have h := (claim_C3_boundary_result_shape [65] (.error (.parseError []))
    ⟨0, 0, 0, 0, 0, none, none⟩ 0 _ rfl).1 (by decide)
  exact ⟨h.1, h.2.2.1⟩

/-! ## Claim C7: URL safety of emitted links and images -/

theorem sanitize_url_some (url u : Str) (h : sanitize_url url = some u) :
    u = url ∧ ∀ scheme ∈ DANGEROUS_URL_SCHEMES,
      strStartsWith (rustToLowercase (rustTrim u)) scheme = false := by
  unfold sanitize_url at h
  by_cases hd : is_dangerous_url url = true
  · simp [hd] at h
  · rw [if_neg (by simpa using hd)] at h
    injection h with h3
    subst h3
    refine ⟨rfl, ?_⟩
    intro scheme hs
    have hfalse : is_dangerous_url url = false := by simpa using hd
    unfold is_dangerous_url at hfalse
    rw [List.any_eq_false] at hfalse
    simpa using hfalse scheme hs

/-- Claim C7: whenever `handle_link` or `handle_image` emits a `](url)`
bracket pair (characterised by the emitted-url projections), the emitted
markdown has exactly that shape and the url does not case-insensitively
start with any of javascript:, data:, vbscript:, file:, about: after
trimming leading (and trailing) whitespace. -/
theorem claim_C7_url_safety (attrs : List HtmlAttr) (children : List Node)
    (u : Str) :
    (handle_link_emitted_url attrs children = some u →
      (∀ out, handle_link attrs children out =
        out ++ "[".data ++
          normalize_text (extract_text_list (Node.document children) children) ++
          "](".data ++ u ++ ")".data) ∧
      ∀ scheme ∈ DANGEROUS_URL_SCHEMES,
        strStartsWith (rustToLowercase (rustTrim u)) scheme = false) ∧
    (handle_image_emitted_url attrs = some u →
      (∀ out, handle_image attrs out =
        out ++ "![".data ++ (get_attr attrs "alt".data).getD [] ++
          "](".data ++ u ++ ")".data) ∧
      ∀ scheme ∈ DANGEROUS_URL_SCHEMES,
        strStartsWith (rustToLowercase (rustTrim u)) scheme = false) := by
  constructor
  · intro hemit
    unfold handle_link_emitted_url at hemit
    cases hga : get_attr attrs "href".data with
    | none => rw [hga] at hemit; exact Option.noConfusion hemit
    | some url =>
      rw [hga] at hemit
      dsimp only at hemit
      cases hsan : sanitize_url url with
      | none =>
        rw [hsan] at hemit
        dsimp only at hemit
        exact Option.noConfusion hemit
      | some su =>
        rw [hsan] at hemit
        dsimp only at hemit
        by_cases hnt :
            normalize_text (extract_text_list (Node.document children) children) = []
        · rw [if_neg (by simpa using hnt)] at hemit
          exact Option.noConfusion hemit
        · rw [if_pos (by simpa using hnt)] at hemit
          injection hemit with hu
          subst hu
          obtain ⟨hval, hsafe⟩ := sanitize_url_some url su hsan
          constructor
          · intro out
            simp [handle_link, hga, hsan, hnt]
          · exact hsafe
  · intro hemit
    unfold handle_image_emitted_url at hemit
    cases hga : get_attr attrs "src".data with
    | none => rw [hga] at hemit; exact Option.noConfusion hemit
    | some url =>
      rw [hga] at hemit
      dsimp only at hemit
      obtain ⟨hval, hsafe⟩ := sanitize_url_some url u hemit
      constructor
      · intro out
        simp [handle_image, hga, hemit]
      · exact hsafe

theorem claim_C7_witness :
    handle_link [⟨"href".data, "https://example.com".data⟩]
      [Node.text "Click".data] [] = "[Click](https://example.com)".data ∧
    strStartsWith (rustToLowercase (rustTrim "https://example.com".data))
      "javascript:".data = false := by
  have hext : extract_text_list (Node.document [Node.text "Click".data])
      [Node.text "Click".data] = "Click".data := by
    simp [extract_text_list, extract_text]
  have hemit : handle_link_emitted_url
      [⟨"href".data, "https://example.com".data⟩] [Node.text "Click".data] =
      some "https://example.com".data := by
    unfold handle_link_emitted_url
    rw [hext]
    rfl
  have h := (claim_C7_url_safety [⟨"href".data, "https://example.com".data⟩]
      [Node.text "Click".data] "https://example.com".data).1 hemit
  constructor
  · rw [h.1 [], hext]
    rfl
  · exact h.2 "javascript:".data (by decide)

/-! ## Claim C10: GFM tables without derivable headers -/

/-- Claim C10: under the GitHub flavor, a table from which the child loop
derives no header cells makes `handle_table` succeed without emitting any
pipe-delimited line: the output is exactly the blank-line separation applied
to the incoming buffer, which appends at most two newline characters. -/
theorem claim_C10_table_without_headers (opts : ConversionOptions)
    (children : List Node) (out : Str) (depth : Nat)
    (hflav : opts.flavor = .gitHubFlavoredMarkdown)
    (aligns : List TableAlignment) (rows : List (List Str))
    (hloop : table_children_loop opts children [] [] [] =
      .ok ([], aligns, rows)) :
    handle_table opts children out depth = .ok (ensure_blank_line_before out) ∧
    (ensure_blank_line_before out = out ∨
     ensure_blank_line_before out = out ++ "\n".data ∨
     ensure_blank_line_before out = out ++ "\n\n".data) := by
  constructor
  · unfold handle_table
    rw [hflav]
    dsimp only
    simp only [bind, Except.bind]
    rw [hloop]
    dsimp only
    rw [if_pos rfl]
  · unfold ensure_blank_line_before
    by_cases h1 : out ≠ [] ∧ ¬ strEndsWith out "\n\n".data
    · rw [if_pos h1]
      by_cases h2 : strEndsWith out "\n".data = true
      · rw [if_pos h2]
        right; left; rfl
      · rw [if_neg h2]
        right; right; rfl
    · rw [if_neg h1]
      left; rfl

theorem claim_C10_witness :
    handle_table ⟨.gitHubFlavoredMarkdown, false, false, true, true, none, true⟩
      [] "X".data 0 = .ok (ensure_blank_line_before "X".data) ∧
    (ensure_blank_line_before "X".data = "X".data ∨
     ensure_blank_line_before "X".data = "X".data ++ "\n".data ∨
     ensure_blank_line_before "X".data = "X".data ++ "\n\n".data) :=
  claim_C10_table_without_headers _ [] "X".data 0 rfl [] []
    (by delta table_children_loop
        delta traverse_node._mutual
        rw [WellFounded.fix_eq])

/-! ## Claims C1, C4: metadata precedence -/

/-- Claim C1 (code bug): with an `og:url` meta tag and no canonical link,
the meta pass does record the og:url value, but `extract` then
unconditionally overwrites the url field with `base_url`, so the claimed
precedence og:url > base_url does not hold. -/
theorem claim_C1_og_url_clobbered_by_base_url :
    (traverse_for_meta (some "https://base.example/".data) true
      (Node.document [Node.element "meta".data
        [⟨"property".data, "og:url".data⟩,
         ⟨"content".data, "https://og.example/page".data⟩] []])
      {}).url = some "https://og.example/page".data ∧
    (metadata_extract (some "https://base.example/".data) true
      (Node.document [Node.element "meta".data
        [⟨"property".data, "og:url".data⟩,
         ⟨"content".data, "https://og.example/page".data⟩] []])).url =
      some "https://base.example/".data ∧
    "https://base.example/".data ≠ "https://og.example/page".data := by
  refine ⟨?_, ?_, by decide⟩
  · simp [traverse_for_meta, traverse_for_meta_list, process_meta_tag, get_attr]
  · simp [metadata_extract, find_link_href_recursive, find_link_href_list,
      find_element_text_recursive, find_element_text_list, traverse_for_meta,
      traverse_for_meta_list, process_meta_tag, get_attr]

theorem metadata_extract_eq (b : Option Str) (r : Bool) (dom : Node) :
    metadata_extract b r dom =
      (match find_link_href_recursive "canonical".data dom with
       | some canonical =>
         { traverse_for_meta b r dom
            { title := find_element_text_recursive "title".data dom } with
            url := some (resolve_url b r canonical) }
       | none =>
         { traverse_for_meta b r dom
            { title := find_element_text_recursive "title".data dom } with
            url := b }) := rfl

theorem traverse_for_meta_element_nil (b : Option Str) (r : Bool)
    (m : PageMetadata) (name2 : Str) (attrs : List HtmlAttr) :
    traverse_for_meta b r (Node.element name2 attrs []) m =
      (if name2 = "meta".data then process_meta_tag b r attrs m else m) := by
  rw [traverse_for_meta]
  rw [traverse_for_meta_list]

theorem traverse_for_meta_doc_pair (b : Option Str) (r : Bool)
    (m : PageMetadata) (c1 c2 : Node) :
    traverse_for_meta b r (Node.document [c1, c2]) m =
      traverse_for_meta b r c2 (traverse_for_meta b r c1 m) := by
  rw [traverse_for_meta]
  rw [traverse_for_meta_list, traverse_for_meta_list, traverse_for_meta_list]

theorem metaC4_no_canonical : find_link_href_recursive "canonical".data
    (Node.document
        [Node.element "meta".data
          [⟨"property".data, "og:title".data⟩, ⟨"content".data, "OG".data⟩] [],
         Node.element "meta".data
          [⟨"name".data, "twitter:title".data⟩, ⟨"content".data, "TW".data⟩]
          []]) = none := by
  simp [find_link_href_recursive, find_link_href_list]

theorem metaC4_no_title_element : find_element_text_recursive "title".data
    (Node.document
        [Node.element "meta".data
          [⟨"property".data, "og:title".data⟩, ⟨"content".data, "OG".data⟩] [],
         Node.element "meta".data
          [⟨"name".data, "twitter:title".data⟩, ⟨"content".data, "TW".data⟩]
          []]) = none := by
  simp [find_element_text_recursive, find_element_text_list]

theorem metaC4_meta_pass : traverse_for_meta none false
    (Node.document
        [Node.element "meta".data
          [⟨"property".data, "og:title".data⟩, ⟨"content".data, "OG".data⟩] [],
         Node.element "meta".data
          [⟨"name".data, "twitter:title".data⟩, ⟨"content".data, "TW".data⟩]
          []]) {} = { title := some "TW".data } := by
  rw [traverse_for_meta_doc_pair, traverse_for_meta_element_nil, if_pos rfl,
    traverse_for_meta_element_nil, if_pos rfl]
  rfl

/-- Claim C4 (code bug): both the `og:title` and `twitter:title` branches of
`process_meta_tag` overwrite the title unconditionally, so with an og:title
followed by a twitter:title the twitter value wins, contradicting the claimed
precedence og:title > twitter:title. -/
theorem claim_C4_twitter_title_overwrites_og_title :
    (metadata_extract none false
      (Node.document
        [Node.element "meta".data
          [⟨"property".data, "og:title".data⟩, ⟨"content".data, "OG".data⟩] [],
         Node.element "meta".data
          [⟨"name".data, "twitter:title".data⟩, ⟨"content".data, "TW".data⟩]
          []])).title = some "TW".data ∧
    "TW".data ≠ "OG".data := by
  refine ⟨?_, by decide⟩
  rw [metadata_extract_eq, metaC4_no_canonical, metaC4_no_title_element,
    metaC4_meta_pass]

/-! ## Claim C8: dangerous-subtree text in link lowering -/

theorem handle_link_eq (attrs : List HtmlAttr) (children : List Node)
    (out : Str) :
    handle_link attrs children out =
      (match get_attr attrs "href".data with
       | some url =>
         match sanitize_url url with
         | some safe_url =>
           if normalize_text (extract_text_list (Node.document children)
               children) ≠ [] then
             out ++ "[".data ++
               normalize_text (extract_text_list (Node.document children)
                 children) ++ "](".data ++ safe_url ++ ")".data
           else out
         | none =>
           if normalize_text (extract_text_list (Node.document children)
               children) ≠ [] then
             out ++ normalize_text (extract_text_list (Node.document children)
               children)
           else out
       | none =>
         if normalize_text (extract_text_list (Node.document children)
             children) ≠ [] then
           out ++ normalize_text (extract_text_list (Node.document children)
             children)
         else out) := rfl

theorem c8_extract_text_eval : extract_text_list
    (Node.document
      [Node.element "script".data [] [Node.text "SECRET".data],
       Node.text "Click".data])
    [Node.element "script".data [] [Node.text "SECRET".data],
     Node.text "Click".data] = "SECRETClick".data := by
  simp [extract_text_list, extract_text]

/-- Claim C8 (code bug): `handle_link` extracts the anchor text with
`extract_text`, which recurses into every element child without consulting
the dangerous-element list, so text strictly inside a `script` child of an
anchor is emitted into the markdown output. -/
theorem claim_C8_script_text_reaches_output :
    handle_link [⟨"href".data, "https://example.com".data⟩]
      [Node.element "script".data [] [Node.text "SECRET".data],
       Node.text "Click".data] [] =
      "[SECRETClick](https://example.com)".data ∧
    "script".data ∈ DANGEROUS_ELEMENTS := by
  refine ⟨?_, by decide⟩
  rw [handle_link_eq, c8_extract_text_eval]
  rfl
